import Mathlib

/-!
# EyeNav: the dwell-activation pipeline

A shallow embedding of `core/cursorControl.js`, `audio/sound.js` and the gaze listener of
`core/tracker.js`.

Conventions of the embedding.

* Clock readings (`performance.now()`), rectangle coordinates and the smoothed cursor
  position are finite numbers and are modelled by exact rationals `ℚ`.
* The source computes with doubles. `handleDwell`, `distSq` and `findNearestClickable`
  compute with exact rationals and carry the properties that do not depend on rounding
  (which state is reset, which element is clicked, what a frame without a target does).
  `F64.handleDwell` and `F64.findNearestClickable` round the result of every operation to
  the nearest double, `fl64`, and carry the properties that depend on the values of the
  clock and of the distance (C1, C6, C7, C13). `Math.hypot` is left to the implementation
  by the language and is a parameter there.
* A JavaScript variable that holds `null` or a number is an `Option ℚ`; its truthiness
  (`if (v)`, `!v`) is `truthy`: a number is truthy when it is not `0`.
* Side effects (canvas drawing, event dispatch, console output) are recorded as a list of
  events `Ev`, in program order.
* A block of statements that may throw is a `Res`: the events it produced and whether it
  ended by throwing; `try`/`catch` is `Res.tryCatch`.
-/

namespace EyeNav

/-! ## Observable events and exceptions -/

/-- Observable side effects of the cursor controller, in program order. -/
inductive Ev (α : Type) where
  /-- The assignment to `dot.style.transform` in `render`. -/
  | moveDot (x y : ℚ) : Ev α
  /-- A call `drawRing(progress)`. -/
  | drawRing (progress : ℚ) : Ev α
  /-- The `ctx.clearRect` of `cancelDwell(true)`. -/
  | clearRing : Ev α
  /-- The call `el.dispatchEvent(evt)` made by `activateClick(el)`. -/
  | dispatchClick (el : α) : Ev α
  /-- The oscillator scheduled by `playBlinkTone`. -/
  | tone : Ev α
  /-- The `console.warn` of `playBlinkTone`. -/
  | warnAudio : Ev α
  /-- The `console.log` after a dispatched click. -/
  | logClick (el : α) : Ev α
  /-- The `console.warn` of the `catch` block of `activateClick`. -/
  | warnDispatch (el : α) : Ev α
  deriving DecidableEq, Repr

/-- Result of running a block of statements: its events and whether it threw. -/
structure Res (α : Type) where
  events : List (Ev α)
  thrown : Bool
  deriving DecidableEq, Repr

/-- Sequential composition `a; b`: `b` runs only when `a` did not throw. -/
def Res.andThen {α : Type} (a b : Res α) : Res α :=
  if a.thrown then a else ⟨a.events ++ b.events, b.thrown⟩

/-- The statement `try { body } catch (err) { handler }`. -/
def Res.tryCatch {α : Type} (body handler : Res α) : Res α :=
  if body.thrown then ⟨body.events ++ handler.events, handler.thrown⟩ else body

/-- The host environment as far as `activateClick` depends on it: whether
`el.dispatchEvent` throws for an element, and whether setting up the audio graph throws. -/
structure Host (α : Type) where
  dispatchThrows : α → Bool
  audioThrows : Bool

/-- The function `playBlinkTone` of `audio/sound.js`: the whole body is inside `try`. -/
def playBlinkTone {α : Type} (host : Host α) : Res α :=
  Res.tryCatch (if host.audioThrows then ⟨[], true⟩ else ⟨[Ev.tone], false⟩)
    ⟨[Ev.warnAudio], false⟩

/-- The function `activateClick(el)`. -/
def activateClick {α : Type} (host : Host α) (el : Option α) : Res α :=
  match el with
  | none => ⟨[], false⟩
  | some e =>
    Res.tryCatch
      (Res.andThen ⟨[Ev.dispatchClick e], host.dispatchThrows e⟩
        (Res.andThen (playBlinkTone host) ⟨[Ev.logClick e], false⟩))
      ⟨[Ev.warnDispatch e], false⟩

/-! ## Configuration -/

/-- The global `window.EyeNavConfig` as far as the cursor reads it; a field that is absent
(`undefined`) is `none`. -/
structure EyeNavConfig where
  dwellTime : Option ℚ
  onsetDelay : Option ℚ

/-- The expression `v || d` for a numeric or absent `v`. -/
def orDefault (v : Option ℚ) (d : ℚ) : ℚ :=
  match v with
  | some q => if q = 0 then d else q
  | none => d

/-- The two constants captured by `initCursor`. -/
structure Timing where
  dwellTime : ℚ
  onsetDelay : ℚ
  deriving DecidableEq, Repr

/-- The constants `dwellTime` and `onsetDelay` as `initCursor` computes them from
`window.EyeNavConfig` (itself possibly absent). -/
def initTiming (cfg : Option EyeNavConfig) : Timing :=
  { dwellTime := orDefault (cfg.bind fun c => c.dwellTime) 800
    onsetDelay := orDefault (cfg.bind fun c => c.onsetDelay) 300 }

/-! ## Dwell state machine -/

/-- The three mutable variables of the dwell logic. In the source `dwellStart` holds the
onset deadline and `dwellTimer` the time at which the countdown started. -/
structure DwellState (α : Type) where
  dwellTimer : Option ℚ
  dwellStart : Option ℚ
  currentTarget : Option α
  deriving DecidableEq, Repr

/-- Truthiness of a variable holding `null` or a number. -/
def truthy (v : Option ℚ) : Bool :=
  match v with
  | some q => decide (q ≠ 0)
  | none => false

/-- Numeric value of a variable known to hold a number. -/
def numVal (v : Option ℚ) : ℚ := v.getD 0

/-- The function `cancelDwell(resetRing)`: new state and events. -/
def cancelDwell {α : Type} (s : DwellState α) (resetRing : Bool) :
    DwellState α × List (Ev α) :=
  ({ s with dwellTimer := none, dwellStart := none },
   if resetRing then [Ev.clearRing] else [])

/-- Result of one call of `handleDwell` or `render`. -/
structure Step (σ α : Type) where
  state : σ
  events : List (Ev α)
  thrown : Bool

/-- The function `handleDwell(el)`. `clock1` is the reading of `performance.now()` taken
when a new target is acquired, `clock2` the reading stored in `now`. The division is exact;
`dwellTime` is not `0` for constants produced by `initTiming`. -/
def handleDwell {α : Type} [DecidableEq α] (host : Host α) (k : Timing)
    (s : DwellState α) (el : Option α) (clock1 clock2 : ℚ) : Step (DwellState α) α :=
  match el with
  | none => ⟨(cancelDwell s true).1, (cancelDwell s true).2, false⟩
  | some e =>
    let s1 : DwellState α :=
      if some e ≠ s.currentTarget then
        { (cancelDwell { s with currentTarget := some e } false).1 with
          dwellStart := some (clock1 + k.onsetDelay) }
      else s
    let now := clock2
    if truthy s1.dwellStart = true ∧ numVal s1.dwellStart < now then
      let s2 : DwellState α :=
        if truthy s1.dwellTimer = true then s1 else { s1 with dwellTimer := some now }
      let progress := min ((now - numVal s2.dwellTimer) / k.dwellTime) 1
      if 1 ≤ progress then
        let r := activateClick host (some e)
        if r.thrown then ⟨s2, Ev.drawRing progress :: r.events, true⟩
        else ⟨(cancelDwell s2 true).1,
              Ev.drawRing progress :: (r.events ++ (cancelDwell s2 true).2), false⟩
      else ⟨s2, [Ev.drawRing progress], false⟩
    else ⟨s1, [], false⟩

/-- The animation loop restricted to the dwell logic: one call of `handleDwell` per frame,
each frame with the candidate resolved on it and its clock reading (both readings of
`performance.now()` inside one synchronous call are taken equal). A frame that throws ends
the loop, since `requestAnimationFrame(render)` is then not reached. The result is the
final state and the events of each frame. -/
def runTicks {α : Type} [DecidableEq α] (host : Host α) (k : Timing) :
    DwellState α → List (Option α × ℚ) → DwellState α × List (List (Ev α))
  | s, [] => (s, [])
  | s, (el, t) :: rest =>
    let r := handleDwell host k s el t t
    if r.thrown then (r.state, [r.events])
    else ((runTicks host k r.state rest).1, r.events :: (runTicks host k r.state rest).2)

/-- The elements on which a click was dispatched, in order. -/
def clicks {α : Type} (evs : List (Ev α)) : List α :=
  evs.filterMap fun ev => match ev with
    | Ev.dispatchClick e => some e
    | _ => none

/-- The progress values passed to `drawRing`, in order. -/
def rings {α : Type} (evs : List (Ev α)) : List ℚ :=
  evs.filterMap fun ev => match ev with
    | Ev.drawRing p => some p
    | _ => none

/-- The frames of a candidate `e` resolved at each of the given clock readings. -/
def gazeAt {α : Type} (e : α) (times : List ℚ) : List (Option α × ℚ) :=
  times.map fun t => (some e, t)

/-- The events of the frame that fires on `e`. -/
def fireEvents {α : Type} (host : Host α) (e : α) : List (Ev α) :=
  Ev.drawRing 1 :: ((activateClick host (some e)).events ++ [Ev.clearRing])

/-! ## Target resolution -/

/-- The result of `el.getBoundingClientRect()` as far as `findNearestClickable` reads it. -/
structure Rect where
  left : ℚ
  top : ℚ
  right : ℚ
  bottom : ℚ
  deriving DecidableEq, Repr

/-- The expression `Math.max(lo - c, 0, c - hi)` that computes `dx` and `dy`. -/
def axisGap (lo hi c : ℚ) : ℚ := max (max (lo - c) 0) (c - hi)

/-- The square of `dist = Math.hypot(dx, dy)`. Distances are non-negative, so the
comparisons `dist < bestDist` and `dist < 60` of the source are the comparisons of the
squares, `distSq < bestDistSq` and `distSq < 3600`; see `hypot_lt_iff`. -/
def distSq (r : Rect) (cx cy : ℚ) : ℚ :=
  axisGap r.left r.right cx ^ 2 + axisGap r.top r.bottom cy ^ 2

/-- The square of the 60 px snap radius. -/
def snapRadiusSq : ℚ := 3600

/-- The `for` loop of `findNearestClickable` over the remaining elements, with the current
`best` and the square of `bestDist` (`none` is the initial `Infinity`). -/
def nearestLoop {α : Type} (rect : α → Rect) (cx cy : ℚ) :
    List α → Option α → Option ℚ → Option α
  | [], best, _ => best
  | el :: rest, best, bestDistSq =>
    if (bestDistSq.all fun b => decide (distSq (rect el) cx cy < b)) = true ∧
        distSq (rect el) cx cy < snapRadiusSq then
      nearestLoop rect cx cy rest (some el) (some (distSq (rect el) cx cy))
    else nearestLoop rect cx cy rest best bestDistSq

/-- The function `findNearestClickable(cx, cy)`; `clickables` is the result of
`querySelectorAll` in document order and `rect` the bounding rectangle of each element. -/
def findNearestClickable {α : Type} (rect : α → Rect) (clickables : List α) (cx cy : ℚ) :
    Option α :=
  nearestLoop rect cx cy clickables none none

/-! ## JavaScript numbers that may be non-finite -/

/-- A JavaScript number: a finite value, `NaN`, `Infinity` or `-Infinity`. Finite values are
exact rationals; the sign of zero is not modelled (a zero divisor is `+0`). -/
inductive JsNum where
  | fin (q : ℚ) : JsNum
  | nan : JsNum
  | posInf : JsNum
  | negInf : JsNum
  deriving DecidableEq, Repr

/-- The function `Number.isFinite`. -/
def JsNum.isFinite : JsNum → Bool
  | JsNum.fin _ => true
  | _ => false

/-- The comparison `a <= b`; it is false when either side is `NaN`. -/
def JsNum.le : JsNum → JsNum → Bool
  | JsNum.nan, _ => false
  | _, JsNum.nan => false
  | JsNum.fin a, JsNum.fin b => decide (a ≤ b)
  | JsNum.negInf, _ => true
  | _, JsNum.posInf => true
  | JsNum.posInf, _ => false
  | JsNum.fin _, JsNum.negInf => false

/-- The product `a * b`. -/
def JsNum.mul : JsNum → JsNum → JsNum
  | JsNum.nan, _ => JsNum.nan
  | _, JsNum.nan => JsNum.nan
  | JsNum.fin a, JsNum.fin b => JsNum.fin (a * b)
  | JsNum.fin a, JsNum.posInf =>
    if 0 < a then JsNum.posInf else if a < 0 then JsNum.negInf else JsNum.nan
  | JsNum.fin a, JsNum.negInf =>
    if 0 < a then JsNum.negInf else if a < 0 then JsNum.posInf else JsNum.nan
  | JsNum.posInf, JsNum.fin b =>
    if 0 < b then JsNum.posInf else if b < 0 then JsNum.negInf else JsNum.nan
  | JsNum.negInf, JsNum.fin b =>
    if 0 < b then JsNum.negInf else if b < 0 then JsNum.posInf else JsNum.nan
  | JsNum.posInf, JsNum.posInf => JsNum.posInf
  | JsNum.posInf, JsNum.negInf => JsNum.negInf
  | JsNum.negInf, JsNum.posInf => JsNum.negInf
  | JsNum.negInf, JsNum.negInf => JsNum.posInf

/-- The quotient `a / b`. -/
def JsNum.div : JsNum → JsNum → JsNum
  | JsNum.nan, _ => JsNum.nan
  | _, JsNum.nan => JsNum.nan
  | JsNum.fin a, JsNum.fin b =>
    if b ≠ 0 then JsNum.fin (a / b)
    else if 0 < a then JsNum.posInf else if a < 0 then JsNum.negInf else JsNum.nan
  | JsNum.fin _, JsNum.posInf => JsNum.fin 0
  | JsNum.fin _, JsNum.negInf => JsNum.fin 0
  | JsNum.posInf, JsNum.fin b => if 0 ≤ b then JsNum.posInf else JsNum.negInf
  | JsNum.negInf, JsNum.fin b => if 0 ≤ b then JsNum.negInf else JsNum.posInf
  | JsNum.posInf, JsNum.posInf => JsNum.nan
  | JsNum.posInf, JsNum.negInf => JsNum.nan
  | JsNum.negInf, JsNum.posInf => JsNum.nan
  | JsNum.negInf, JsNum.negInf => JsNum.nan

/-- The function `Math.max` of two arguments. -/
def JsNum.max : JsNum → JsNum → JsNum
  | JsNum.nan, _ => JsNum.nan
  | _, JsNum.nan => JsNum.nan
  | JsNum.posInf, _ => JsNum.posInf
  | _, JsNum.posInf => JsNum.posInf
  | JsNum.negInf, b => b
  | a, JsNum.negInf => a
  | JsNum.fin a, JsNum.fin b => JsNum.fin (Max.max a b)

/-- The function `Math.min` of two arguments. -/
def JsNum.min : JsNum → JsNum → JsNum
  | JsNum.nan, _ => JsNum.nan
  | _, JsNum.nan => JsNum.nan
  | JsNum.negInf, _ => JsNum.negInf
  | _, JsNum.negInf => JsNum.negInf
  | JsNum.posInf, b => b
  | a, JsNum.posInf => a
  | JsNum.fin a, JsNum.fin b => JsNum.fin (Min.min a b)

/-! ## The render loop -/

/-- The layout of the page on one frame: the clickable elements in document order and
their bounding rectangles. -/
structure Page (α : Type) where
  clickables : List α
  rect : α → Rect

/-- The mutable variables of `initCursor`: the smoothed position `x`, `y`, the last gaze
point `targetX`, `targetY`, and the dwell variables. -/
structure CursorState (α : Type) where
  x : ℚ
  y : ℚ
  targetX : JsNum
  targetY : JsNum
  dwell : DwellState α

/-- The `gazeUpdate` listener of `initCursor`. -/
def onGazeUpdate {α : Type} (st : CursorState α) (x y : JsNum) : CursorState α :=
  { st with targetX := x, targetY := y }

/-- One call of `render()` at clock reading `now`. -/
def render {α : Type} [DecidableEq α] (host : Host α) (k : Timing) (page : Page α)
    (st : CursorState α) (now : ℚ) : Step (CursorState α) α :=
  match st.targetX, st.targetY with
  | JsNum.fin tx, JsNum.fin ty =>
    let x := st.x + (tx - st.x) * (1 / 2)
    let y := st.y + (ty - st.y) * (1 / 2)
    let el := findNearestClickable page.rect page.clickables x y
    let r := handleDwell host k st.dwell el now now
    ⟨{ st with x := x, y := y, dwell := r.state }, Ev.moveDot x y :: r.events, r.thrown⟩
  | _, _ => ⟨st, [], false⟩

/-! ## The gaze listener of the tracker -/

/-- The object built by `getPreviewRect`. -/
structure PreviewRect where
  x : ℚ
  y : ℚ
  w : ℚ
  h : ℚ
  deriving DecidableEq, Repr

/-- The module variables `lastEmit` and `previewRect`. -/
structure TrackerState where
  lastEmit : ℚ
  previewRect : Option PreviewRect
  deriving DecidableEq, Repr

/-- What the listener reads from the window when a sample arrives: the viewport size and
what `getPreviewRect()` would return. -/
structure Viewport where
  innerWidth : ℚ
  innerHeight : ℚ
  preview : Option PreviewRect

/-- The `data` object passed by the gaze source. -/
structure GazeData where
  x : JsNum
  y : JsNum
  deriving DecidableEq, Repr

/-- The `detail` of a dispatched `gazeUpdate` event. -/
structure GazeUpdate where
  x : JsNum
  y : JsNum
  t : ℚ
  deriving DecidableEq, Repr

/-- One sample delivered to the listener: the window at that moment, the `data` argument
(`none` for `null`), the `elapsedTime` argument and the reading of `performance.now()`. -/
structure Sample where
  view : Viewport
  data : Option GazeData
  elapsedTime : ℚ
  now : ℚ

/-- The constant `emitInterval = 1000 / 30`. -/
def emitInterval : ℚ := 1000 / 30

/-- The initial values `lastEmit = 0`, `previewRect = null`. -/
def initialTracker : TrackerState := ⟨0, none⟩

/-- The function `remapToViewport(data)`: the new state and the mapped point. -/
def remapToViewport (st : TrackerState) (view : Viewport) (data : GazeData) :
    TrackerState × (JsNum × JsNum) :=
  let st1 : TrackerState :=
    if st.previewRect.isNone then { st with previewRect := view.preview } else st
  match st1.previewRect with
  | none => (st1, (data.x, data.y))
  | some pr =>
    let normalized := JsNum.le data.x (JsNum.fin 1) && JsNum.le data.y (JsNum.fin 1)
    let gx := if normalized then JsNum.mul data.x (JsNum.fin pr.w) else data.x
    let gy := if normalized then JsNum.mul data.y (JsNum.fin pr.h) else data.y
    let px := JsNum.div gx (JsNum.fin pr.w)
    let py := JsNum.div gy (JsNum.fin pr.h)
    (st1, (JsNum.mul px (JsNum.fin view.innerWidth),
           JsNum.mul py (JsNum.fin view.innerHeight)))

/-- The callback passed to `setGazeListener`: the new state and the dispatched
`gazeUpdate`, if any. -/
def gazeListener (st : TrackerState) (smp : Sample) : TrackerState × Option GazeUpdate :=
  match smp.data with
  | none => (st, none)
  | some data =>
    if smp.now - st.lastEmit < emitInterval then (st, none)
    else
      let st1 : TrackerState := { st with lastEmit := smp.now }
      let m := remapToViewport st1 smp.view data
      let x := JsNum.min (JsNum.max m.2.1 (JsNum.fin 0)) (JsNum.fin smp.view.innerWidth)
      let y := JsNum.min (JsNum.max m.2.2 (JsNum.fin 0)) (JsNum.fin smp.view.innerHeight)
      (m.1, some ⟨x, y, smp.elapsedTime⟩)

/-- The listener applied to a sequence of samples: the final state and, for each sample,
the dispatched `gazeUpdate` if any. -/
def runListener : TrackerState → List Sample → TrackerState × List (Option GazeUpdate)
  | st, [] => (st, [])
  | st, smp :: rest =>
    ((runListener (gazeListener st smp).1 rest).1,
     (gazeListener st smp).2 :: (runListener (gazeListener st smp).1 rest).2)

/-- The clock readings of the samples for which a `gazeUpdate` was dispatched. -/
def acceptedTimes : List Sample → List (Option GazeUpdate) → List ℚ
  | smp :: rest, some _ :: outs => smp.now :: acceptedTimes rest outs
  | _ :: rest, none :: outs => acceptedTimes rest outs
  | _, _ => []

/-- The clock reading of the last sample accepted while the listener, started in state
`st`, processed `pre`; the value of `lastEmit` in `st` when none was accepted. -/
def lastAccepted (st : TrackerState) (pre : List Sample) : ℚ :=
  ((acceptedTimes pre (runListener st pre).2).getLast?).getD st.lastEmit

/-- The test `lo ≤ v ≤ hi` on a JavaScript number. -/
def JsNum.within (lo hi : ℚ) (v : JsNum) : Bool :=
  JsNum.le (JsNum.fin lo) v && JsNum.le v (JsNum.fin hi)

/-! ## Configuration updates while the cursor runs -/

/-- The cursor engine after `initCursor`: the constants it captured and its dwell
variables. -/
structure Engine (α : Type) where
  timing : Timing
  dwell : DwellState α

/-- The page while the cursor runs: the global `window.EyeNavConfig` and the engine. -/
structure Session (α : Type) where
  config : Option EyeNavConfig
  engine : Engine α

/-- The start of `initCursor`: the constants are computed from the configuration of that
moment and the dwell variables are `null`. -/
def initCursor {α : Type} (cfg : Option EyeNavConfig) : Session α :=
  ⟨cfg, ⟨initTiming cfg, ⟨none, none, none⟩⟩⟩

/-- What can happen to a running session. -/
inductive SessionEvent (α : Type) where
  /-- A frame of the render loop: `handleDwell(el)` at clock reading `now`. -/
  | frame (el : Option α) (now : ℚ) : SessionEvent α
  /-- An `input` event on a slider of the settings menu, with the dwell slider at
  `dwellValue`; the handler assigns `window.EyeNavConfig.dwellTime`. -/
  | sliderInput (dwellValue : ℤ) : SessionEvent α
  /-- Any other assignment to `window.EyeNavConfig` or to its fields. -/
  | assign (cfg : Option EyeNavConfig) : SessionEvent α

/-- The assignment `window.EyeNavConfig.dwellTime = parseInt(dwell.value)` of the slider
handler of `initMenu`; without a configuration object the handler throws at its first
assignment and nothing is written. -/
def sliderInput (cfg : Option EyeNavConfig) (dwellValue : ℤ) : Option EyeNavConfig :=
  cfg.map fun c => { c with dwellTime := some (dwellValue : ℚ) }

/-- A running session processing events in order; the result is the final session and the
events of each frame. As in `runTicks`, a frame that throws ends the loop. -/
def runSession {α : Type} [DecidableEq α] (host : Host α) :
    Session α → List (SessionEvent α) → Session α × List (List (Ev α))
  | s, [] => (s, [])
  | s, SessionEvent.frame el now :: rest =>
    let r := handleDwell host s.engine.timing s.engine.dwell el now now
    if r.thrown then ({ s with engine := { s.engine with dwell := r.state } }, [r.events])
    else
      ((runSession host { s with engine := { s.engine with dwell := r.state } } rest).1,
       r.events ::
         (runSession host { s with engine := { s.engine with dwell := r.state } } rest).2)
  | s, SessionEvent.sliderInput v :: rest =>
    runSession host { s with config := sliderInput s.config v } rest
  | s, SessionEvent.assign cfg :: rest =>
    runSession host { s with config := cfg } rest

/-- The frames among the events of a session. -/
def framesOf {α : Type} : List (SessionEvent α) → List (Option α × ℚ)
  | [] => []
  | SessionEvent.frame el now :: rest => (el, now) :: framesOf rest
  | _ :: rest => framesOf rest

/-! ## The integration bridge -/

/-- The event types the bridge listens to. -/
inductive EventType where
  | gazeUpdate : EventType
  | eyeblink : EventType
  | eyeNavClick : EventType
  deriving DecidableEq, Repr

/-- A function object that can be registered as a listener: a function `f` supplied by the
caller, or an arrow function created by `connectToEyeNav`, which calls `f`. Every
evaluation of an arrow expression creates a new function object; `serial` tells them
apart. -/
inductive Listener (κ : Type) where
  | callback (f : κ) : Listener κ
  | arrow (serial : ℕ) (f : κ) : Listener κ
  deriving DecidableEq, Repr

/-- The listener registry of `document` and the number of arrow functions created so
far. -/
structure Document (κ : Type) where
  listeners : List (EventType × Listener κ)
  arrows : ℕ

/-- The method `document.addEventListener(type, listener)`: a listener already registered
for the type is not added again. -/
def addEventListener {κ : Type} [DecidableEq κ] (doc : Document κ) (ty : EventType)
    (l : Listener κ) : Document κ :=
  if (ty, l) ∈ doc.listeners then doc
  else { doc with listeners := doc.listeners ++ [(ty, l)] }

/-- The method `document.removeEventListener(type, listener)`: it removes the registration
of that very function object, if there is one; `none` is an `undefined` listener. -/
def removeEventListener {κ : Type} [DecidableEq κ] (doc : Document κ) (ty : EventType)
    (l : Option (Listener κ)) : Document κ :=
  match l with
  | none => doc
  | some l => { doc with listeners := doc.listeners.filter fun p => decide (p ≠ (ty, l)) }

/-- The argument of `connectToEyeNav`; an absent callback is `none`. -/
structure Callbacks (κ : Type) where
  onGaze : Option κ
  onBlink : Option κ
  onClick : Option κ

/-- Registration of one arrow function calling `f`, when the callback is present. -/
def hook {κ : Type} [DecidableEq κ] (doc : Document κ) (ty : EventType) (f : Option κ) :
    Document κ :=
  match f with
  | none => doc
  | some f =>
    addEventListener { doc with arrows := doc.arrows + 1 } ty (Listener.arrow doc.arrows f)

/-- The body of `connectToEyeNav(callbacks)` up to its `return`: the document afterwards. -/
def connectToEyeNav {κ : Type} [DecidableEq κ] (doc : Document κ) (cb : Callbacks κ) :
    Document κ :=
  hook (hook (hook doc EventType.gazeUpdate cb.onGaze) EventType.eyeblink cb.onBlink)
    EventType.eyeNavClick cb.onClick

/-- The function `disconnect` returned by `connectToEyeNav(callbacks)`: it passes the
callbacks themselves to `removeEventListener`. -/
def disconnect {κ : Type} [DecidableEq κ] (cb : Callbacks κ) (doc : Document κ) :
    Document κ :=
  removeEventListener
    (removeEventListener
      (removeEventListener doc EventType.gazeUpdate (cb.onGaze.map Listener.callback))
      EventType.eyeblink (cb.onBlink.map Listener.callback))
    EventType.eyeNavClick (cb.onClick.map Listener.callback)

/-- The caller's function that a listener runs when it is invoked. -/
def Listener.target {κ : Type} : Listener κ → κ
  | Listener.callback f => f
  | Listener.arrow _ f => f

/-- The caller's functions run, in order, when an event of the type is dispatched on
`document`. -/
def invoked {κ : Type} (doc : Document κ) (ty : EventType) : List κ :=
  doc.listeners.filterMap fun p => if p.1 = ty then some p.2.target else none

/-! ## Double arithmetic -/

/-- Rounding of a rational to the nearest integer, ties to the even one. -/
def rne (y : ℚ) : ℤ :=
  if Int.fract y < 1 / 2 then ⌊y⌋
  else if 1 / 2 < Int.fract y then ⌊y⌋ + 1
  else if ⌊y⌋ % 2 = 0 then ⌊y⌋ else ⌊y⌋ + 1

/-- The spacing of doubles in the binade of `x`: `2 ^ (⌊log₂ |x|⌋ - 52)`. -/
def ulp64 (x : ℚ) : ℚ := (2 : ℚ) ^ (Int.log 2 |x| - 52)

/-- The double nearest to `x`, ties to the even significand: the result of every
arithmetic operation of the source on finite numbers. The exponent is not bounded, so
overflow and the subnormal range are not modelled; clock readings in milliseconds and
pixel coordinates are far from both. -/
def fl64 (x : ℚ) : ℚ := (rne (x / ulp64 x) : ℚ) * ulp64 x

/-! ## The dwell state machine and the target search in double arithmetic -/

/-- The function `handleDwell(el)` in double arithmetic: as `handleDwell`, with the sum
`performance.now() + onsetDelay`, the difference `now - dwellTimer` and the quotient by
`dwellTime` each rounded to the nearest double. The comparisons and `Math.min` are exact
on doubles. -/
def F64.handleDwell {α : Type} [DecidableEq α] (host : Host α) (k : Timing)
    (s : DwellState α) (el : Option α) (clock1 clock2 : ℚ) : Step (DwellState α) α :=
  match el with
  | none => ⟨(cancelDwell s true).1, (cancelDwell s true).2, false⟩
  | some e =>
    let s1 : DwellState α :=
      if some e ≠ s.currentTarget then
        { (cancelDwell { s with currentTarget := some e } false).1 with
          dwellStart := some (fl64 (clock1 + k.onsetDelay)) }
      else s
    let now := clock2
    if truthy s1.dwellStart = true ∧ numVal s1.dwellStart < now then
      let s2 : DwellState α :=
        if truthy s1.dwellTimer = true then s1 else { s1 with dwellTimer := some now }
      let progress := min (fl64 (fl64 (now - numVal s2.dwellTimer) / k.dwellTime)) 1
      if 1 ≤ progress then
        let r := activateClick host (some e)
        if r.thrown then ⟨s2, Ev.drawRing progress :: r.events, true⟩
        else ⟨(cancelDwell s2 true).1,
              Ev.drawRing progress :: (r.events ++ (cancelDwell s2 true).2), false⟩
      else ⟨s2, [Ev.drawRing progress], false⟩
    else ⟨s1, [], false⟩

/-- The loop of `runTicks` over `F64.handleDwell`: one call per frame, each frame with the
candidate resolved on it and its clock reading. -/
def F64.runTicks {α : Type} [DecidableEq α] (host : Host α) (k : Timing) :
    DwellState α → List (Option α × ℚ) → DwellState α × List (List (Ev α))
  | s, [] => (s, [])
  | s, (el, t) :: rest =>
    let r := F64.handleDwell host k s el t t
    if r.thrown then (r.state, [r.events])
    else ((F64.runTicks host k r.state rest).1,
          r.events :: (F64.runTicks host k r.state rest).2)

/-- The expression `Math.max(lo - c, 0, c - hi)` in double arithmetic: both differences are
rounded to the nearest double. -/
def F64.axisGap (lo hi c : ℚ) : ℚ := max (max (fl64 (lo - c)) 0) (fl64 (c - hi))

/-- The value `dist = Math.hypot(dx, dy)` of `findNearestClickable`; `hypot` is the
`Math.hypot` of the engine, whose accuracy the language leaves to the implementation. -/
def F64.dist (hypot : ℚ → ℚ → ℚ) (r : Rect) (cx cy : ℚ) : ℚ :=
  hypot (F64.axisGap r.left r.right cx) (F64.axisGap r.top r.bottom cy)

/-- The `for` loop of `findNearestClickable` in double arithmetic, with the current `best`
and `bestDist` (`none` is the initial `Infinity`). -/
def F64.nearestLoop {α : Type} (hypot : ℚ → ℚ → ℚ) (rect : α → Rect) (cx cy : ℚ) :
    List α → Option α → Option ℚ → Option α
  | [], best, _ => best
  | el :: rest, best, bestDist =>
    if (bestDist.all fun b => decide (F64.dist hypot (rect el) cx cy < b)) = true ∧
        F64.dist hypot (rect el) cx cy < 60 then
      F64.nearestLoop hypot rect cx cy rest (some el) (some (F64.dist hypot (rect el) cx cy))
    else F64.nearestLoop hypot rect cx cy rest best bestDist

/-- The function `findNearestClickable(cx, cy)` in double arithmetic. -/
def F64.findNearestClickable {α : Type} (hypot : ℚ → ℚ → ℚ) (rect : α → Rect)
    (clickables : List α) (cx cy : ℚ) : Option α :=
  F64.nearestLoop hypot rect cx cy clickables none none

/-- The double nearest to the square root of a positive rational. -/
def F64.sqrt (s : ℚ) : ℚ :=
  let u : ℚ := (2 : ℚ) ^ (Int.log 2 s / 2 - 52)
  let m : ℚ := s / (u * u)
  let n : ℕ := Nat.sqrt ⌊m⌋₊
  if m < ((n : ℚ) + 1 / 2) ^ 2 then n * u
  else if ((n : ℚ) + 1 / 2) ^ 2 < m then (n + 1) * u
  else if n % 2 = 0 then n * u else (n + 1) * u

/-- A reference `Math.hypot` on non-negative doubles: the other argument when one is zero,
otherwise the double nearest to the exact value. Engines may differ from it in the last
place. -/
def F64.hypot (a b : ℚ) : ℚ :=
  if b = 0 then a else if a = 0 then b else F64.sqrt (a * a + b * b)

/-! ## The invariant behind the timing of a click -/

/-- What is known, in double arithmetic, of the state reached from the initial state by
the frames `pre`: either both timers are unset, or the current target was acquired on a
frame of `pre` at `tacq`, has been resolved on every frame since, the onset deadline is
`tacq + onsetDelay` rounded to a double, and a started countdown started on one of these
frames, strictly after the deadline. -/
def F64.Armed {α : Type} [DecidableEq α] (host : Host α) (k : Timing)
    (pre : List (Option α × ℚ)) (s : DwellState α) : Prop :=
  (s.dwellStart = none ∧ s.dwellTimer = none) ∨
  ∃ (e : α) (pre1 : List (Option α × ℚ)) (tacq : ℚ) (mid : List ℚ),
    s.currentTarget = some e ∧ pre = pre1 ++ (some e, tacq) :: gazeAt e mid ∧
    (F64.runTicks host k ⟨none, none, none⟩ pre1).1.currentTarget ≠ some e ∧
    s.dwellStart = some (fl64 (tacq + k.onsetDelay)) ∧
    ∀ td, s.dwellTimer = some td → td ∈ tacq :: mid ∧ fl64 (tacq + k.onsetDelay) < td

/-! ## Concrete inputs used to instantiate the theorems -/

/-- A host in which neither the dispatch nor the audio set-up throws. -/
def quietHost : Host ℕ := ⟨fun _ => false, false⟩

/-- A host in which every dispatch throws. -/
def throwingHost : Host ℕ := ⟨fun _ => true, false⟩

/-- The default constants: `dwellTime = 800`, `onsetDelay = 300`. -/
def defaultTiming : Timing := ⟨800, 300⟩

/-- The state of the dwell variables when `initCursor` starts the loop. -/
def initialDwell : DwellState ℕ := ⟨none, none, none⟩

/-- A page with one clickable element, `7`, occupying the rectangle from (0, 0) to
(100, 50). -/
def demoPage : Page ℕ := ⟨[7], fun _ => ⟨0, 0, 100, 50⟩⟩

/-- A preview element that has no size, as `getBoundingClientRect` reports for an element
that is not displayed. -/
def hiddenPreview : PreviewRect := ⟨0, 0, 0, 0⟩

/-- A sample with normalized coordinates (0.5, 0.5) arriving at 1000 ms in a 1000 x 800
viewport. -/
def centreSample : Sample :=
  ⟨⟨1000, 800, some hiddenPreview⟩, some ⟨JsNum.fin (1 / 2), JsNum.fin (1 / 2)⟩, 0, 1000⟩

/-- A document without listeners. -/
def emptyDocument : Document ℕ := ⟨[], 0⟩

/-- The callbacks `onGaze = 1`, `onBlink = 2`, `onClick = 3`. -/
def demoCallbacks : Callbacks ℕ := ⟨some 1, some 2, some 3⟩

/-! # Theorems -/

/-! ## Basic facts about one call -/

theorem playBlinkTone_thrown {α : Type} (host : Host α) :
    (playBlinkTone host).thrown = false := by
  unfold playBlinkTone Res.tryCatch
  cases host.audioThrows <;> simp

theorem activateClick_thrown {α : Type} (host : Host α) (el : Option α) :
    (activateClick host el).thrown = false := by
  cases el with
  | none => rfl
  | some e =>
    have h := playBlinkTone_thrown host
    unfold activateClick Res.tryCatch Res.andThen
    cases hd : host.dispatchThrows e <;> simp [h, hd]

theorem clicks_activateClick {α : Type} (host : Host α) (e : α) :
    clicks (activateClick host (some e)).events = [e] := by
  unfold activateClick playBlinkTone Res.tryCatch Res.andThen
  cases hd : host.dispatchThrows e <;> cases ha : host.audioThrows <;> simp [clicks, hd, ha]

theorem rings_activateClick {α : Type} (host : Host α) (e : α) :
    rings (activateClick host (some e)).events = [] := by
  unfold activateClick playBlinkTone Res.tryCatch Res.andThen
  cases hd : host.dispatchThrows e <;> cases ha : host.audioThrows <;> simp [rings, hd, ha]

theorem handleDwell_thrown {α : Type} [DecidableEq α] (host : Host α) (k : Timing)
    (s : DwellState α) (el : Option α) (c1 c2 : ℚ) :
    (handleDwell host k s el c1 c2).thrown = false := by
  cases el with
  | none => rfl
  | some e =>
    simp only [handleDwell, activateClick_thrown]
    split_ifs <;> first | rfl | contradiction

theorem runTicks_cons {α : Type} [DecidableEq α] (host : Host α) (k : Timing)
    (s : DwellState α) (el : Option α) (t : ℚ) (rest : List (Option α × ℚ)) :
    runTicks host k s ((el, t) :: rest) =
      ((runTicks host k (handleDwell host k s el t t).state rest).1,
       (handleDwell host k s el t t).events ::
         (runTicks host k (handleDwell host k s el t t).state rest).2) := by
  simp [runTicks, handleDwell_thrown]

/-- A frame without a resolved target clears both timers and keeps `currentTarget`. -/
theorem handleDwell_none {α : Type} [DecidableEq α] (host : Host α) (k : Timing)
    (s : DwellState α) (c1 c2 : ℚ) :
    handleDwell host k s none c1 c2 =
      ⟨⟨none, none, s.currentTarget⟩, [Ev.clearRing], false⟩ := by
  simp [handleDwell, cancelDwell]

/-- A frame that resolves a target other than `currentTarget` arms the onset deadline. -/
theorem handleDwell_acquire {α : Type} [DecidableEq α] (host : Host α) (k : Timing)
    (s : DwellState α) (e : α) (t : ℚ) (hne : s.currentTarget ≠ some e)
    (hk : 0 ≤ k.onsetDelay) :
    handleDwell host k s (some e) t t =
      ⟨⟨none, some (t + k.onsetDelay), some e⟩, [], false⟩ := by
  have hne2 : ¬ (some e = s.currentTarget) := fun h => hne h.symm
  have hlt : ¬ (t + k.onsetDelay < t) := by linarith
  simp [handleDwell, cancelDwell, hne2, numVal, hlt]

/-- A frame on the current target before the onset deadline has passed changes nothing. -/
theorem handleDwell_wait {α : Type} [DecidableEq α] (host : Host α) (k : Timing)
    (tm : Option ℚ) (d : ℚ) (e : α) (c t : ℚ) (ht : t ≤ d) :
    handleDwell host k ⟨tm, some d, some e⟩ (some e) c t =
      ⟨⟨tm, some d, some e⟩, [], false⟩ := by
  have hlt : ¬ (d < t) := by linarith
  simp [handleDwell, numVal, hlt]

/-- A frame on the current target with no onset deadline set changes nothing. -/
theorem handleDwell_idle {α : Type} [DecidableEq α] (host : Host α) (k : Timing)
    (tm : Option ℚ) (e : α) (c t : ℚ) :
    handleDwell host k ⟨tm, none, some e⟩ (some e) c t =
      ⟨⟨tm, none, some e⟩, [], false⟩ := by
  simp [handleDwell, truthy]

/-- The first frame after the onset deadline starts the countdown and reports progress 0. -/
theorem handleDwell_start {α : Type} [DecidableEq α] (host : Host α) (k : Timing)
    (d : ℚ) (e : α) (c t : ℚ) (hd : d ≠ 0) (ht : d < t) :
    handleDwell host k ⟨none, some d, some e⟩ (some e) c t =
      ⟨⟨some t, some d, some e⟩, [Ev.drawRing 0], false⟩ := by
  simp [handleDwell, truthy, numVal, hd, ht]

/-- A frame during the countdown that has not reached `dwellTime` reports the progress. -/
theorem handleDwell_progress {α : Type} [DecidableEq α] (host : Host α) (k : Timing)
    (td d : ℚ) (e : α) (c t : ℚ) (hd : d ≠ 0) (htd : td ≠ 0) (ht : d < t)
    (hp : (t - td) / k.dwellTime < 1) :
    handleDwell host k ⟨some td, some d, some e⟩ (some e) c t =
      ⟨⟨some td, some d, some e⟩, [Ev.drawRing ((t - td) / k.dwellTime)], false⟩ := by
  have hmin : min ((t - td) / k.dwellTime) 1 = (t - td) / k.dwellTime := min_eq_left hp.le
  have hnot : ¬ (1 ≤ (t - td) / k.dwellTime) := not_le.mpr hp
  simp [handleDwell, truthy, numVal, hd, htd, ht, hmin, hnot]

/-- A frame during the countdown that has reached `dwellTime` reports progress 1, clicks
and clears both timers. -/
theorem handleDwell_fire {α : Type} [DecidableEq α] (host : Host α) (k : Timing)
    (td d : ℚ) (e : α) (c t : ℚ) (hd : d ≠ 0) (htd : td ≠ 0) (ht : d < t)
    (hp : 1 ≤ (t - td) / k.dwellTime) :
    handleDwell host k ⟨some td, some d, some e⟩ (some e) c t =
      ⟨⟨none, none, some e⟩,
       Ev.drawRing 1 :: ((activateClick host (some e)).events ++ [Ev.clearRing]), false⟩ := by
  have hmin : min ((t - td) / k.dwellTime) 1 = 1 := min_eq_right hp
  simp [handleDwell, truthy, numVal, hd, htd, ht, hmin, activateClick_thrown, cancelDwell]

/-- The constants captured by `initCursor` are never `0`, whatever the configuration
holds: the division by `dwellTime` in `handleDwell` is a division by a non-zero number. -/
theorem initTiming_ne_zero (cfg : Option EyeNavConfig) :
    (initTiming cfg).dwellTime ≠ 0 ∧ (initTiming cfg).onsetDelay ≠ 0 := by
  have h : ∀ (v : Option ℚ) (d : ℚ), d ≠ 0 → orDefault v d ≠ 0 := by
    intro v d hd
    cases v with
    | none => exact hd
    | some q =>
      by_cases hq : q = 0
      · simpa [orDefault, hq] using hd
      · simp [orDefault, hq]
  exact ⟨h _ 800 (by norm_num), h _ 300 (by norm_num)⟩

/-! ## Runs of frames on one candidate -/

theorem gazeAt_cons {α : Type} (e : α) (t : ℚ) (ts : List ℚ) :
    gazeAt e (t :: ts) = (some e, t) :: gazeAt e ts := rfl

theorem gazeAt_append {α : Type} (e : α) (xs ys : List ℚ) :
    gazeAt e (xs ++ ys) = gazeAt e xs ++ gazeAt e ys := by
  simp [gazeAt]

/-- Frames before the onset deadline leave the state alone and produce no event. -/
theorem runTicks_wait {α : Type} [DecidableEq α] (host : Host α) (k : Timing)
    (tm : Option ℚ) (d : ℚ) (e : α) (A : List ℚ) (rest : List (Option α × ℚ))
    (hA : ∀ a ∈ A, a ≤ d) :
    runTicks host k ⟨tm, some d, some e⟩ (gazeAt e A ++ rest) =
      ((runTicks host k ⟨tm, some d, some e⟩ rest).1,
       A.map (fun _ => []) ++ (runTicks host k ⟨tm, some d, some e⟩ rest).2) := by
  induction A with
  | nil => simp [gazeAt]
  | cons a A ih =>
    have ha : a ≤ d := hA a (List.mem_cons_self a A)
    have hA2 : ∀ b ∈ A, b ≤ d := fun b hb => hA b (List.mem_cons_of_mem a hb)
    rw [gazeAt_cons, List.cons_append, runTicks_cons, handleDwell_wait host k tm d e a a ha]
    simp [ih hA2]

/-- Frames during the countdown that stay below `dwellTime` each report their progress. -/
theorem runTicks_progress {α : Type} [DecidableEq α] (host : Host α) (k : Timing)
    (td d : ℚ) (e : α) (B : List ℚ) (rest : List (Option α × ℚ))
    (hd : d ≠ 0) (htd : td ≠ 0)
    (hB : ∀ b ∈ B, d < b ∧ (b - td) / k.dwellTime < 1) :
    runTicks host k ⟨some td, some d, some e⟩ (gazeAt e B ++ rest) =
      ((runTicks host k ⟨some td, some d, some e⟩ rest).1,
       B.map (fun b => [Ev.drawRing ((b - td) / k.dwellTime)]) ++
         (runTicks host k ⟨some td, some d, some e⟩ rest).2) := by
  induction B with
  | nil => simp [gazeAt]
  | cons b B ih =>
    have hb := hB b (List.mem_cons_self b B)
    have hB2 : ∀ x ∈ B, d < x ∧ (x - td) / k.dwellTime < 1 :=
      fun x hx => hB x (List.mem_cons_of_mem b hx)
    rw [gazeAt_cons, List.cons_append, runTicks_cons,
      handleDwell_progress host k td d e b b hd htd hb.1 hb.2]
    simp [ih hB2]

/-- Once both timers are cleared, frames on the current target do nothing. -/
theorem runTicks_idle {α : Type} [DecidableEq α] (host : Host α) (k : Timing)
    (tm : Option ℚ) (e : α) (C : List ℚ) :
    runTicks host k ⟨tm, none, some e⟩ (gazeAt e C) =
      (⟨tm, none, some e⟩, C.map (fun _ => [])) := by
  induction C with
  | nil => simp [gazeAt, runTicks]
  | cons c C ih =>
    rw [gazeAt_cons, runTicks_cons, handleDwell_idle host k tm e c c]
    simp [ih]

/-- The complete run of a dwell on a newly acquired candidate: frames `A` up to the onset
deadline, the frame `td` that starts the countdown, frames `B` below `dwellTime`, the
frame `tf` that fires, and any further frames `C` on the same candidate. -/
theorem runTicks_cycle {α : Type} [DecidableEq α] (host : Host α) (k : Timing)
    (s : DwellState α) (e : α) (t0 td tf : ℚ) (A B C : List ℚ)
    (hne : s.currentTarget ≠ some e) (hk : 0 < k.onsetDelay) (h0 : 0 ≤ t0)
    (hA : ∀ a ∈ A, a ≤ t0 + k.onsetDelay) (htd : t0 + k.onsetDelay < td)
    (hB : ∀ b ∈ B, t0 + k.onsetDelay < b ∧ (b - td) / k.dwellTime < 1)
    (htf : t0 + k.onsetDelay < tf) (hfire : 1 ≤ (tf - td) / k.dwellTime) :
    runTicks host k s (gazeAt e (t0 :: (A ++ td :: (B ++ tf :: C)))) =
      (⟨none, none, some e⟩,
       [] :: (A.map (fun _ => []) ++ [Ev.drawRing 0] ::
         (B.map (fun b => [Ev.drawRing ((b - td) / k.dwellTime)]) ++
           fireEvents host e :: C.map (fun _ => [])))) := by
  have hd : t0 + k.onsetDelay ≠ 0 := by
    have : 0 < t0 + k.onsetDelay := by linarith
    exact ne_of_gt this
  have htd0 : td ≠ 0 := by
    have : 0 < td := by linarith
    exact ne_of_gt this
  rw [gazeAt_cons, runTicks_cons, handleDwell_acquire host k s e t0 hne hk.le]
  simp only []
  rw [gazeAt_append, runTicks_wait host k none _ e A _ hA, gazeAt_cons, runTicks_cons,
    handleDwell_start host k _ e td td hd htd]
  simp only []
  rw [gazeAt_append, runTicks_progress host k td _ e B _ hd htd0 hB, gazeAt_cons,
    runTicks_cons, handleDwell_fire host k td _ e tf tf hd htd0 htf hfire]
  simp only []
  rw [runTicks_idle]
  rfl

/-! ## Splitting a run of frames into its phases -/

theorem exists_first_split (p : ℚ → Prop) (l : List ℚ) (h : ∃ x ∈ l, p x) :
    ∃ A x B, l = A ++ x :: B ∧ p x ∧ ∀ a ∈ A, ¬ p a := by
  induction l with
  | nil => simp at h
  | cons y l ih =>
    by_cases hy : p y
    · exact ⟨[], y, l, rfl, hy, by simp⟩
    · have h2 : ∃ x ∈ l, p x := by
        obtain ⟨x, hx, hpx⟩ := h
        rcases List.mem_cons.mp hx with rfl | hx
        · exact absurd hpx hy
        · exact ⟨x, hx, hpx⟩
      obtain ⟨A, x, B, hl, hpx, hA⟩ := ih h2
      refine ⟨y :: A, x, B, by simp [hl], hpx, ?_⟩
      intro a ha
      rcases List.mem_cons.mp ha with rfl | ha
      · exact hy
      · exact hA a ha

theorem clicks_append {α : Type} (xs ys : List (Ev α)) :
    clicks (xs ++ ys) = clicks xs ++ clicks ys := by
  simp [clicks]

theorem rings_append {α : Type} (xs ys : List (Ev α)) :
    rings (xs ++ ys) = rings xs ++ rings ys := by
  simp [rings]

theorem clicks_fireEvents {α : Type} (host : Host α) (e : α) :
    clicks (fireEvents host e) = [e] := by
  have h := clicks_activateClick host e
  simp only [fireEvents, clicks, List.filterMap_cons, List.filterMap_append] at h ⊢
  simp [h]

theorem rings_fireEvents {α : Type} (host : Host α) (e : α) :
    rings (fireEvents host e) = [1] := by
  have h := rings_activateClick host e
  simp only [fireEvents, rings, List.filterMap_cons, List.filterMap_append] at h ⊢
  simp [h]

theorem flatten_map_nil {α β : Type} (l : List β) :
    (l.map (fun _ => ([] : List α))).flatten = [] := by
  induction l with
  | nil => rfl
  | cons x l ih => simp

theorem flatten_map_ring {α : Type} (f : ℚ → ℚ) (l : List ℚ) :
    rings (l.map (fun b => [(Ev.drawRing (f b) : Ev α)])).flatten = l.map f := by
  induction l with
  | nil => rfl
  | cons x l ih =>
    simp only [List.map_cons, List.flatten_cons, rings_append, ih]
    simp [rings]

theorem flatten_map_ring_clicks {α : Type} (f : ℚ → ℚ) (l : List ℚ) :
    clicks (l.map (fun b => [(Ev.drawRing (f b) : Ev α)])).flatten = [] := by
  induction l with
  | nil => rfl
  | cons x l ih =>
    simp only [List.map_cons, List.flatten_cons, clicks_append, ih]
    simp [clicks]

/-! ## Rounding to the nearest double -/

theorem rne_intCast (n : ℤ) : rne (n : ℚ) = n := by
  simp [rne]

theorem floor_le_rne (y : ℚ) : ⌊y⌋ ≤ rne y := by
  unfold rne
  split_ifs <;> omega

theorem rne_le_floor_succ (y : ℚ) : rne y ≤ ⌊y⌋ + 1 := by
  unfold rne
  split_ifs <;> omega

theorem rne_mono {y z : ℚ} (h : y ≤ z) : rne y ≤ rne z := by
  have hf : ⌊y⌋ ≤ ⌊z⌋ := Int.floor_mono h
  rcases lt_or_eq_of_le hf with hlt | heq
  · have h1 := rne_le_floor_succ y
    have h2 := floor_le_rne z
    omega
  · have hfr : Int.fract y ≤ Int.fract z := by
      unfold Int.fract
      rw [heq]
      linarith
    unfold rne
    rw [heq]
    split_ifs <;> first | omega | (exfalso; linarith)

/-- A rational within one half of an integer rounds to it. -/
theorem rne_eq_of_close (y : ℚ) (n : ℤ) (h : |y - n| < 1 / 2) : rne y = n := by
  rw [abs_lt] at h
  obtain ⟨h1, h2⟩ := h
  rcases le_or_lt (n : ℚ) y with hy | hy
  · have hfl : ⌊y⌋ = n := by
      rw [Int.floor_eq_iff]
      constructor <;> linarith
    have hfr : Int.fract y < 1 / 2 := by
      unfold Int.fract
      rw [hfl]
      linarith
    simp only [rne, if_pos hfr, hfl]
  · have hfl : ⌊y⌋ = n - 1 := by
      rw [Int.floor_eq_iff]
      push_cast
      constructor <;> linarith
    have hfr : 1 / 2 < Int.fract y := by
      unfold Int.fract
      rw [hfl]
      push_cast
      linarith
    have hfr2 : ¬ (Int.fract y < 1 / 2) := not_lt.mpr hfr.le
    simp only [rne, hfr2, hfr, if_true, if_false, hfl]
    omega

/-- A rational halfway between two integers rounds to the even one. -/
theorem rne_tie (y : ℚ) (n : ℤ) (h : y = n + 1 / 2) :
    rne y = if n % 2 = 0 then n else n + 1 := by
  have hfl : ⌊y⌋ = n := by
    rw [Int.floor_eq_iff]
    constructor <;> linarith
  have hfr : Int.fract y = 1 / 2 := by
    unfold Int.fract
    rw [hfl]
    linarith
  simp [rne, hfr, hfl]

theorem ulp64_pos (x : ℚ) : 0 < ulp64 x := by
  unfold ulp64
  positivity

theorem fl64_zero : fl64 0 = 0 := by
  simp [fl64, rne]

/-- The exponent of the binade of a non-zero `x`. -/
theorem log_eq_of_bounds (x : ℚ) (e : ℤ) (h1 : (2 : ℚ) ^ e ≤ x) (h2 : x < (2 : ℚ) ^ (e + 1)) :
    Int.log 2 |x| = e := by
  have hx : 0 < x := lt_of_lt_of_le (by positivity) h1
  rw [abs_of_pos hx]
  have hpos : 0 < x := hx
  have a : e ≤ Int.log 2 x := by
    rw [← Int.zpow_le_iff_le_log (by norm_num) hpos]
    exact_mod_cast h1
  have b : Int.log 2 x < e + 1 := by
    rw [← Int.lt_zpow_iff_log_lt (by norm_num) hpos]
    exact_mod_cast h2
  omega

/-- Evaluation of `fl64`: for a positive value in the binade with exponent `e`, a value whose quotient by the
spacing is within one half of the integer `n` rounds to `n` times the spacing. -/
theorem fl64_eq (x : ℚ) (e n : ℤ) (h1 : (2 : ℚ) ^ e ≤ x) (h2 : x < (2 : ℚ) ^ (e + 1))
    (hn : |x / (2 : ℚ) ^ (e - 52) - n| < 1 / 2) : fl64 x = n * (2 : ℚ) ^ (e - 52) := by
  unfold fl64 ulp64
  rw [log_eq_of_bounds x e h1 h2, rne_eq_of_close _ n hn]

/-- Evaluation of `fl64` at a tie. -/
theorem fl64_tie (x : ℚ) (e n : ℤ) (h1 : (2 : ℚ) ^ e ≤ x) (h2 : x < (2 : ℚ) ^ (e + 1))
    (hn : x / (2 : ℚ) ^ (e - 52) = n + 1 / 2) :
    fl64 x = (if n % 2 = 0 then n else n + 1 : ℤ) * (2 : ℚ) ^ (e - 52) := by
  unfold fl64 ulp64
  rw [log_eq_of_bounds x e h1 h2, rne_tie _ n hn]

theorem fl64_one : fl64 1 = 1 := by
  have h := fl64_eq 1 0 (2 ^ 52) (by norm_num) (by norm_num) (by norm_num)
  rw [h]
  norm_num

/-- A positive number rounds into the closure of its binade. -/
theorem fl64_binade_pos (x : ℚ) (hx : 0 < x) :
    (2 : ℚ) ^ Int.log 2 |x| ≤ fl64 x ∧ fl64 x ≤ (2 : ℚ) ^ (Int.log 2 |x| + 1) := by
  have habs : |x| = x := abs_of_pos hx
  have hlo : (2 : ℚ) ^ Int.log 2 |x| ≤ x := by
    rw [habs]
    exact_mod_cast Int.zpow_log_le_self (b := 2) (r := x) (by norm_num) hx
  have hhi : x < (2 : ℚ) ^ (Int.log 2 |x| + 1) := by
    rw [habs]
    exact_mod_cast Int.lt_zpow_succ_log_self (b := 2) (by norm_num) x
  have hu := ulp64_pos x
  have e1 : (2 : ℚ) ^ Int.log 2 |x| = ((2 ^ 52 : ℤ) : ℚ) * ulp64 x := by
    unfold ulp64
    rw [zpow_sub₀ (by norm_num)]
    push_cast
    field_simp
    ring
  have e2 : (2 : ℚ) ^ (Int.log 2 |x| + 1) = ((2 ^ 53 : ℤ) : ℚ) * ulp64 x := by
    unfold ulp64
    rw [zpow_sub₀ (by norm_num), zpow_add₀ (by norm_num)]
    push_cast
    field_simp
    ring
  have q1 : ((2 ^ 52 : ℤ) : ℚ) ≤ x / ulp64 x := by
    rw [le_div_iff₀ hu, ← e1]
    exact hlo
  have q2 : x / ulp64 x ≤ ((2 ^ 53 : ℤ) : ℚ) := by
    rw [div_le_iff₀ hu, ← e2]
    exact hhi.le
  have r1 := rne_mono q1
  have r2 := rne_mono q2
  rw [rne_intCast] at r1 r2
  unfold fl64
  rw [e1, e2]
  constructor
  · exact mul_le_mul_of_nonneg_right (by exact_mod_cast r1) hu.le
  · exact mul_le_mul_of_nonneg_right (by exact_mod_cast r2) hu.le

/-- A negative number rounds into the closure of its binade. -/
theorem fl64_binade_neg (x : ℚ) (hx : x < 0) :
    -(2 : ℚ) ^ (Int.log 2 |x| + 1) ≤ fl64 x ∧ fl64 x ≤ -(2 : ℚ) ^ Int.log 2 |x| := by
  have habs : |x| = -x := abs_of_neg hx
  have hnx : 0 < -x := by linarith
  have hlo : (2 : ℚ) ^ Int.log 2 |x| ≤ -x := by
    rw [habs]
    exact_mod_cast Int.zpow_log_le_self (b := 2) (r := -x) (by norm_num) hnx
  have hhi : -x < (2 : ℚ) ^ (Int.log 2 |x| + 1) := by
    rw [habs]
    exact_mod_cast Int.lt_zpow_succ_log_self (b := 2) (by norm_num) (-x)
  have hu := ulp64_pos x
  have e1 : (2 : ℚ) ^ Int.log 2 |x| = ((2 ^ 52 : ℤ) : ℚ) * ulp64 x := by
    unfold ulp64
    rw [zpow_sub₀ (by norm_num)]
    push_cast
    field_simp
    ring
  have e2 : (2 : ℚ) ^ (Int.log 2 |x| + 1) = ((2 ^ 53 : ℤ) : ℚ) * ulp64 x := by
    unfold ulp64
    rw [zpow_sub₀ (by norm_num), zpow_add₀ (by norm_num)]
    push_cast
    field_simp
    ring
  have q1 : x / ulp64 x ≤ ((-(2 ^ 52) : ℤ) : ℚ) := by
    rw [div_le_iff₀ hu]
    push_cast
    have : ((2 ^ 52 : ℤ) : ℚ) * ulp64 x ≤ -x := by rw [← e1]; exact hlo
    push_cast at this
    linarith
  have q2 : ((-(2 ^ 53) : ℤ) : ℚ) ≤ x / ulp64 x := by
    rw [le_div_iff₀ hu]
    push_cast
    have : -x ≤ ((2 ^ 53 : ℤ) : ℚ) * ulp64 x := by rw [← e2]; exact hhi.le
    push_cast at this
    linarith
  have r1 := rne_mono q1
  have r2 := rne_mono q2
  rw [rne_intCast] at r1 r2
  have c1 : ((rne (x / ulp64 x) : ℤ) : ℚ) ≤ -(2 ^ 52 : ℚ) := by exact_mod_cast r1
  have c2 : -(2 ^ 53 : ℚ) ≤ ((rne (x / ulp64 x) : ℤ) : ℚ) := by exact_mod_cast r2
  unfold fl64
  rw [e1, e2]
  push_cast
  constructor
  · nlinarith
  · nlinarith

theorem fl64_pos {x : ℚ} (hx : 0 < x) : 0 < fl64 x :=
  lt_of_lt_of_le (by positivity) (fl64_binade_pos x hx).1

theorem fl64_neg {x : ℚ} (hx : x < 0) : fl64 x < 0 :=
  lt_of_le_of_lt (fl64_binade_neg x hx).2 (by
    have : (0 : ℚ) < (2 : ℚ) ^ Int.log 2 |x| := by positivity
    linarith)

theorem fl64_mono_pos {x y : ℚ} (hx : 0 < x) (h : x ≤ y) : fl64 x ≤ fl64 y := by
  have hy : 0 < y := lt_of_lt_of_le hx h
  have hlog : Int.log 2 |x| ≤ Int.log 2 |y| := by
    rw [abs_of_pos hx, abs_of_pos hy]
    exact Int.log_mono_right hx h
  rcases lt_or_eq_of_le hlog with hlt | heq
  · have h1 := (fl64_binade_pos x hx).2
    have h2 := (fl64_binade_pos y hy).1
    have h3 : (2 : ℚ) ^ (Int.log 2 |x| + 1) ≤ (2 : ℚ) ^ Int.log 2 |y| :=
      zpow_le_zpow_right₀ (by norm_num) (by omega)
    linarith
  · have hu : ulp64 x = ulp64 y := by unfold ulp64; rw [heq]
    unfold fl64
    rw [hu]
    have hq : x / ulp64 y ≤ y / ulp64 y := div_le_div_of_nonneg_right h (ulp64_pos y).le
    exact mul_le_mul_of_nonneg_right (by exact_mod_cast rne_mono hq) (ulp64_pos y).le

theorem fl64_mono_neg {x y : ℚ} (hy : y < 0) (h : x ≤ y) : fl64 x ≤ fl64 y := by
  have hx : x < 0 := lt_of_le_of_lt h hy
  have hlog : Int.log 2 |y| ≤ Int.log 2 |x| := by
    rw [abs_of_neg hx, abs_of_neg hy]
    exact Int.log_mono_right (by linarith) (by linarith)
  rcases lt_or_eq_of_le hlog with hlt | heq
  · have h1 := (fl64_binade_neg x hx).2
    have h2 := (fl64_binade_neg y hy).1
    have h3 : (2 : ℚ) ^ (Int.log 2 |y| + 1) ≤ (2 : ℚ) ^ Int.log 2 |x| :=
      zpow_le_zpow_right₀ (by norm_num) (by omega)
    linarith
  · have hu : ulp64 x = ulp64 y := by unfold ulp64; rw [heq]
    unfold fl64
    rw [hu]
    have hq : x / ulp64 y ≤ y / ulp64 y := div_le_div_of_nonneg_right h (ulp64_pos y).le
    exact mul_le_mul_of_nonneg_right (by exact_mod_cast rne_mono hq) (ulp64_pos y).le

/-- Rounding to the nearest double is monotone. -/
theorem fl64_mono {x y : ℚ} (h : x ≤ y) : fl64 x ≤ fl64 y := by
  rcases lt_trichotomy x 0 with hx | hx | hx
  · rcases lt_trichotomy y 0 with hy | hy | hy
    · exact fl64_mono_neg hy h
    · rw [hy, fl64_zero]; exact (fl64_neg hx).le
    · exact le_trans (fl64_neg hx).le (fl64_pos hy).le
  · rw [hx, fl64_zero]
    rcases lt_or_eq_of_le (hx ▸ h) with hy | hy
    · exact (fl64_pos hy).le
    · rw [← hy, fl64_zero]
  · exact fl64_mono_pos hx h

theorem fl64_nonneg {x : ℚ} (hx : 0 ≤ x) : 0 ≤ fl64 x := by
  have := fl64_mono hx
  rwa [fl64_zero] at this

theorem fl64_nonpos {x : ℚ} (hx : x ≤ 0) : fl64 x ≤ 0 := by
  have := fl64_mono hx
  rwa [fl64_zero] at this

/-! ## One call of `handleDwell` in double arithmetic -/

theorem handleDwell64_thrown {α : Type} [DecidableEq α] (host : Host α) (k : Timing)
    (s : DwellState α) (el : Option α) (c1 c2 : ℚ) :
    (F64.handleDwell host k s el c1 c2).thrown = false := by
  cases el with
  | none => rfl
  | some e =>
    simp only [F64.handleDwell, activateClick_thrown]
    split_ifs <;> first | rfl | contradiction

theorem runTicks64_cons {α : Type} [DecidableEq α] (host : Host α) (k : Timing)
    (s : DwellState α) (el : Option α) (t : ℚ) (rest : List (Option α × ℚ)) :
    F64.runTicks host k s ((el, t) :: rest) =
      ((F64.runTicks host k (F64.handleDwell host k s el t t).state rest).1,
       (F64.handleDwell host k s el t t).events ::
         (F64.runTicks host k (F64.handleDwell host k s el t t).state rest).2) := by
  simp [F64.runTicks, handleDwell64_thrown]

theorem handleDwell64_none {α : Type} [DecidableEq α] (host : Host α) (k : Timing)
    (s : DwellState α) (c1 c2 : ℚ) :
    F64.handleDwell host k s none c1 c2 =
      ⟨⟨none, none, s.currentTarget⟩, [Ev.clearRing], false⟩ := by
  simp [F64.handleDwell, cancelDwell]

/-- Acquiring a new target behaves like a call on the freshly armed state. -/
theorem handleDwell64_change_eq {α : Type} [DecidableEq α] (host : Host α) (k : Timing)
    (s : DwellState α) (e : α) (c1 c2 : ℚ) (hne : s.currentTarget ≠ some e) :
    F64.handleDwell host k s (some e) c1 c2 =
      F64.handleDwell host k ⟨none, some (fl64 (c1 + k.onsetDelay)), some e⟩ (some e) c1 c2 := by
  have hne2 : ¬ (some e = s.currentTarget) := fun h => hne h.symm
  simp [F64.handleDwell, cancelDwell, hne2]

/-- A frame on the current target at or before the onset deadline changes nothing. -/
theorem handleDwell64_wait {α : Type} [DecidableEq α] (host : Host α) (k : Timing)
    (tm : Option ℚ) (d : ℚ) (e : α) (c t : ℚ) (ht : t ≤ d) :
    F64.handleDwell host k ⟨tm, some d, some e⟩ (some e) c t =
      ⟨⟨tm, some d, some e⟩, [], false⟩ := by
  have hlt : ¬ (d < t) := by linarith
  simp [F64.handleDwell, numVal, hlt]

/-- A frame that resolves a target other than `currentTarget`, at a clock reading that is
a double, arms the onset deadline: the sum rounded to the nearest double. -/
theorem handleDwell64_acquire {α : Type} [DecidableEq α] (host : Host α) (k : Timing)
    (s : DwellState α) (e : α) (t : ℚ) (hne : s.currentTarget ≠ some e)
    (hk : 0 ≤ k.onsetDelay) (ht : fl64 t = t) :
    F64.handleDwell host k s (some e) t t =
      ⟨⟨none, some (fl64 (t + k.onsetDelay)), some e⟩, [], false⟩ := by
  rw [handleDwell64_change_eq host k s e t t hne]
  apply handleDwell64_wait
  have h := fl64_mono (show t ≤ t + k.onsetDelay by linarith)
  rwa [ht] at h

theorem handleDwell64_idle {α : Type} [DecidableEq α] (host : Host α) (k : Timing)
    (tm : Option ℚ) (e : α) (c t : ℚ) :
    F64.handleDwell host k ⟨tm, none, some e⟩ (some e) c t =
      ⟨⟨tm, none, some e⟩, [], false⟩ := by
  simp [F64.handleDwell, truthy]

/-- The first frame after the onset deadline starts the countdown and reports progress 0. -/
theorem handleDwell64_start {α : Type} [DecidableEq α] (host : Host α) (k : Timing)
    (d : ℚ) (e : α) (c t : ℚ) (hd : d ≠ 0) (ht : d < t) :
    F64.handleDwell host k ⟨none, some d, some e⟩ (some e) c t =
      ⟨⟨some t, some d, some e⟩, [Ev.drawRing 0], false⟩ := by
  simp [F64.handleDwell, truthy, numVal, hd, ht, fl64_zero]

/-- A frame during the countdown whose computed progress is below 1 reports it. -/
theorem handleDwell64_progress {α : Type} [DecidableEq α] (host : Host α) (k : Timing)
    (td d : ℚ) (e : α) (c t : ℚ) (hd : d ≠ 0) (htd : td ≠ 0) (ht : d < t)
    (hp : fl64 (fl64 (t - td) / k.dwellTime) < 1) :
    F64.handleDwell host k ⟨some td, some d, some e⟩ (some e) c t =
      ⟨⟨some td, some d, some e⟩,
       [Ev.drawRing (fl64 (fl64 (t - td) / k.dwellTime))], false⟩ := by
  have hmin : min (fl64 (fl64 (t - td) / k.dwellTime)) 1 =
      fl64 (fl64 (t - td) / k.dwellTime) := min_eq_left hp.le
  have hnot : ¬ (1 ≤ fl64 (fl64 (t - td) / k.dwellTime)) := not_le.mpr hp
  simp [F64.handleDwell, truthy, numVal, hd, htd, ht, hmin, hnot]

/-- A frame during the countdown whose computed progress is at least 1 reports progress 1,
clicks and clears both timers. -/
theorem handleDwell64_fire {α : Type} [DecidableEq α] (host : Host α) (k : Timing)
    (td d : ℚ) (e : α) (c t : ℚ) (hd : d ≠ 0) (htd : td ≠ 0) (ht : d < t)
    (hp : 1 ≤ fl64 (fl64 (t - td) / k.dwellTime)) :
    F64.handleDwell host k ⟨some td, some d, some e⟩ (some e) c t =
      ⟨⟨none, none, some e⟩, fireEvents host e, false⟩ := by
  have hmin : min (fl64 (fl64 (t - td) / k.dwellTime)) 1 = 1 := min_eq_right hp
  simp [F64.handleDwell, truthy, numVal, hd, htd, ht, hmin, activateClick_thrown, cancelDwell,
    fireEvents]

/-- The computed progress is non-negative from the start of the countdown on. -/
theorem progress64_nonneg (k : Timing) (hdw : 0 < k.dwellTime) (td t : ℚ) (h : td ≤ t) :
    0 ≤ fl64 (fl64 (t - td) / k.dwellTime) :=
  fl64_nonneg (div_nonneg (fl64_nonneg (by linarith)) hdw.le)

/-- The computed progress does not decrease with the clock. -/
theorem progress64_mono (k : Timing) (hdw : 0 < k.dwellTime) (td t1 t2 : ℚ) (h : t1 ≤ t2) :
    fl64 (fl64 (t1 - td) / k.dwellTime) ≤ fl64 (fl64 (t2 - td) / k.dwellTime) :=
  fl64_mono (div_le_div_of_nonneg_right (fl64_mono (by linarith)) hdw.le)

/-- The computed progress does not increase when the countdown starts later. -/
theorem progress64_anti (k : Timing) (hdw : 0 < k.dwellTime) (td1 td2 t : ℚ) (h : td1 ≤ td2) :
    fl64 (fl64 (t - td2) / k.dwellTime) ≤ fl64 (fl64 (t - td1) / k.dwellTime) :=
  fl64_mono (div_le_div_of_nonneg_right (fl64_mono (by linarith)) hdw.le)

/-- The computed progress is not positive at or before the start of the countdown. -/
theorem progress64_nonpos (k : Timing) (hdw : 0 < k.dwellTime) (td t : ℚ) (h : t ≤ td) :
    fl64 (fl64 (t - td) / k.dwellTime) ≤ 0 :=
  fl64_nonpos (div_nonpos_of_nonpos_of_nonneg (fl64_nonpos (by linarith)) hdw.le)

/-- When at least `dwellTime` has elapsed since the start of the countdown and `dwellTime`
is a double, the computed progress is at least 1. -/
theorem progress64_of_elapsed (k : Timing) (hdw : 0 < k.dwellTime)
    (hdbl : fl64 k.dwellTime = k.dwellTime) (td t : ℚ) (h : td + k.dwellTime ≤ t) :
    1 ≤ fl64 (fl64 (t - td) / k.dwellTime) := by
  have h1 : k.dwellTime ≤ fl64 (t - td) := by
    have := fl64_mono (show k.dwellTime ≤ t - td by linarith)
    rwa [hdbl] at this
  have h2 : 1 ≤ fl64 (t - td) / k.dwellTime := by
    rw [le_div_iff₀ hdw]
    linarith
  have := fl64_mono h2
  rwa [fl64_one] at this

/-! ## Runs of frames on one candidate in double arithmetic -/

theorem runTicks64_wait {α : Type} [DecidableEq α] (host : Host α) (k : Timing)
    (tm : Option ℚ) (d : ℚ) (e : α) (A : List ℚ) (rest : List (Option α × ℚ))
    (hA : ∀ a ∈ A, a ≤ d) :
    F64.runTicks host k ⟨tm, some d, some e⟩ (gazeAt e A ++ rest) =
      ((F64.runTicks host k ⟨tm, some d, some e⟩ rest).1,
       A.map (fun _ => []) ++ (F64.runTicks host k ⟨tm, some d, some e⟩ rest).2) := by
  induction A with
  | nil => simp [gazeAt]
  | cons a A ih =>
    have ha : a ≤ d := hA a (List.mem_cons_self a A)
    have hA2 : ∀ b ∈ A, b ≤ d := fun b hb => hA b (List.mem_cons_of_mem a hb)
    rw [gazeAt_cons, List.cons_append, runTicks64_cons, handleDwell64_wait host k tm d e a a ha]
    simp [ih hA2]

theorem runTicks64_progress {α : Type} [DecidableEq α] (host : Host α) (k : Timing)
    (td d : ℚ) (e : α) (B : List ℚ) (rest : List (Option α × ℚ))
    (hd : d ≠ 0) (htd : td ≠ 0)
    (hB : ∀ b ∈ B, d < b ∧ fl64 (fl64 (b - td) / k.dwellTime) < 1) :
    F64.runTicks host k ⟨some td, some d, some e⟩ (gazeAt e B ++ rest) =
      ((F64.runTicks host k ⟨some td, some d, some e⟩ rest).1,
       B.map (fun b => [Ev.drawRing (fl64 (fl64 (b - td) / k.dwellTime))]) ++
         (F64.runTicks host k ⟨some td, some d, some e⟩ rest).2) := by
  induction B with
  | nil => simp [gazeAt]
  | cons b B ih =>
    have hb := hB b (List.mem_cons_self b B)
    have hB2 : ∀ x ∈ B, d < x ∧ fl64 (fl64 (x - td) / k.dwellTime) < 1 :=
      fun x hx => hB x (List.mem_cons_of_mem b hx)
    rw [gazeAt_cons, List.cons_append, runTicks64_cons,
      handleDwell64_progress host k td d e b b hd htd hb.1 hb.2]
    simp [ih hB2]

theorem runTicks64_idle {α : Type} [DecidableEq α] (host : Host α) (k : Timing)
    (tm : Option ℚ) (e : α) (C : List ℚ) :
    F64.runTicks host k ⟨tm, none, some e⟩ (gazeAt e C) =
      (⟨tm, none, some e⟩, C.map (fun _ => [])) := by
  induction C with
  | nil => simp [gazeAt, F64.runTicks]
  | cons c C ih =>
    rw [gazeAt_cons, runTicks64_cons, handleDwell64_idle host k tm e c c]
    simp [ih]

/-- The complete run of a dwell on a newly acquired candidate in double arithmetic: frames
`A` up to the computed onset deadline, the frame `td` that starts the countdown, frames
`B` whose computed progress is below 1, the frame `tf` whose computed progress reaches 1,
and any further frames `C` on the same candidate. -/
theorem runTicks64_cycle {α : Type} [DecidableEq α] (host : Host α) (k : Timing)
    (s : DwellState α) (e : α) (t0 td tf : ℚ) (A B C : List ℚ)
    (hne : s.currentTarget ≠ some e) (hk : 0 < k.onsetDelay) (h0 : 0 ≤ t0)
    (ht0 : fl64 t0 = t0)
    (hA : ∀ a ∈ A, a ≤ fl64 (t0 + k.onsetDelay)) (htd : fl64 (t0 + k.onsetDelay) < td)
    (hB : ∀ b ∈ B, fl64 (t0 + k.onsetDelay) < b ∧ fl64 (fl64 (b - td) / k.dwellTime) < 1)
    (htf : fl64 (t0 + k.onsetDelay) < tf)
    (hfire : 1 ≤ fl64 (fl64 (tf - td) / k.dwellTime)) :
    F64.runTicks host k s (gazeAt e (t0 :: (A ++ td :: (B ++ tf :: C)))) =
      (⟨none, none, some e⟩,
       [] :: (A.map (fun _ => []) ++ [Ev.drawRing 0] ::
         (B.map (fun b => [Ev.drawRing (fl64 (fl64 (b - td) / k.dwellTime))]) ++
           fireEvents host e :: C.map (fun _ => [])))) := by
  have hDpos : 0 < fl64 (t0 + k.onsetDelay) := fl64_pos (by linarith)
  have hd : fl64 (t0 + k.onsetDelay) ≠ 0 := ne_of_gt hDpos
  have htd0 : td ≠ 0 := ne_of_gt (lt_trans hDpos htd)
  rw [gazeAt_cons, runTicks64_cons, handleDwell64_acquire host k s e t0 hne hk.le ht0]
  simp only []
  rw [gazeAt_append, runTicks64_wait host k none _ e A _ hA, gazeAt_cons, runTicks64_cons,
    handleDwell64_start host k _ e td td hd htd]
  simp only []
  rw [gazeAt_append, runTicks64_progress host k td _ e B _ hd htd0 hB, gazeAt_cons,
    runTicks64_cons, handleDwell64_fire host k td _ e tf tf hd htd0 htf hfire]
  simp only []
  rw [runTicks64_idle]

/-! ## Doubles used in the instances -/

theorem fl64_300 : fl64 300 = 300 := by
  rw [fl64_eq 300 8 (300 * 2 ^ 44) (by norm_num) (by norm_num) (by norm_num)]
  norm_num

theorem fl64_700 : fl64 700 = 700 := by
  rw [fl64_eq 700 9 (700 * 2 ^ 43) (by norm_num) (by norm_num) (by norm_num)]
  norm_num

theorem fl64_800 : fl64 800 = 800 := by
  rw [fl64_eq 800 9 (800 * 2 ^ 43) (by norm_num) (by norm_num) (by norm_num)]
  norm_num

/-- The double nearest to one tenth. -/
theorem fl64_one_tenth : fl64 (1 / 10) = 3602879701896397 / 2 ^ 55 := by
  rw [fl64_eq (1 / 10) (-4) 7205759403792794 (by norm_num) (by norm_num)
    (by rw [abs_lt]; constructor <;> norm_num)]
  norm_num

theorem fl64_seven_eighths : fl64 (7 / 8) = 7 / 8 := by
  rw [fl64_eq (7 / 8) (-1) (7 * 2 ^ 50) (by norm_num) (by norm_num) (by norm_num)]
  norm_num

/-- With `dwellTime = 800`, a frame at most 700 ms after the start of the countdown has a
computed progress below 1. -/
theorem progress64_lt_one_of_le_700 (td t : ℚ) (h : t - td ≤ 700) :
    fl64 (fl64 (t - td) / defaultTiming.dwellTime) < 1 := by
  have h1 : fl64 (t - td) ≤ 700 := by
    have := fl64_mono h
    rwa [fl64_700] at this
  have h2 : fl64 (t - td) / defaultTiming.dwellTime ≤ 7 / 8 := by
    rw [div_le_iff₀ (by norm_num [defaultTiming])]
    norm_num [defaultTiming]
    linarith
  have h3 := fl64_mono h2
  rw [fl64_seven_eighths] at h3
  linarith

/-- With `dwellTime = 800`, the computed progress 800 ms after the start is 1. -/
theorem progress64_at_800 (td t : ℚ) (h : t - td = 800) :
    fl64 (fl64 (t - td) / defaultTiming.dwellTime) = 1 := by
  rw [h, fl64_800]
  norm_num [defaultTiming, fl64_one]

/-! ## Splitting a run of frames into its phases, in double arithmetic -/

theorem split_cycle64 (k : Timing) (hdw : 0 < k.dwellTime) (D : ℚ) (rest : List ℚ)
    (hsorted : rest.Sorted (· ≤ ·))
    (hspan : ∃ td ∈ rest, D < td ∧
      ∃ tf ∈ rest, 1 ≤ fl64 (fl64 (tf - td) / k.dwellTime)) :
    ∃ A td B tf C, rest = A ++ td :: (B ++ tf :: C) ∧ (∀ a ∈ A, a ≤ D) ∧ D < td ∧
      (∀ b ∈ B, td ≤ b ∧ fl64 (fl64 (b - td) / k.dwellTime) < 1) ∧
      1 ≤ fl64 (fl64 (tf - td) / k.dwellTime) ∧ td < tf ∧ B.Sorted (· ≤ ·) := by
  obtain ⟨td1, htd1, hd1, tf1, htf1, hf1⟩ := hspan
  obtain ⟨A, td, R, hrest, hdtd, hA⟩ := exists_first_split (fun x => D < x) rest ⟨td1, htd1, hd1⟩
  subst hrest
  have hs := hsorted
  simp only [List.Sorted, List.pairwise_append, List.pairwise_cons] at hs
  obtain ⟨_, ⟨hR, hRs⟩, hAR⟩ := hs
  have hA2 : ∀ a ∈ A, a ≤ D := fun a ha => not_lt.mp (hA a ha)
  have htd_le : td ≤ td1 := by
    rcases List.mem_append.mp htd1 with h | h
    · exact absurd hd1 (hA td1 h)
    · rcases List.mem_cons.mp h with h | h
      · exact h.ge
      · exact hR td1 h
  have hlate : ∀ t, 1 ≤ fl64 (fl64 (t - td) / k.dwellTime) → td < t := by
    intro t ht
    by_contra hcon
    have := progress64_nonpos k hdw td t (not_lt.mp hcon)
    linarith
  have hf2 : 1 ≤ fl64 (fl64 (tf1 - td) / k.dwellTime) :=
    le_trans hf1 (progress64_anti k hdw td td1 tf1 htd_le)
  have htfR : tf1 ∈ R := by
    have hlt := hlate tf1 hf2
    rcases List.mem_append.mp htf1 with h | h
    · have := hA2 tf1 h
      linarith
    · rcases List.mem_cons.mp h with h | h
      · linarith
      · exact h
  obtain ⟨B, tf, C, hR2, hftf, hB⟩ :=
    exists_first_split (fun x => 1 ≤ fl64 (fl64 (x - td) / k.dwellTime)) R ⟨tf1, htfR, hf2⟩
  subst hR2
  refine ⟨A, td, B, tf, C, rfl, hA2, hdtd, ?_, hftf, hlate tf hftf, ?_⟩
  · intro b hb
    exact ⟨hR b (List.mem_append_left _ hb), not_le.mp (hB b hb)⟩
  · exact (List.pairwise_append.mp hRs).1

/-! ## C1: one activation per completed dwell -/

/-- C1 (amended): in double arithmetic, with positive `onsetDelay` and `dwellTime`, for
frames with non-decreasing clock readings, the first a double `t0 ≥ 0`, that all resolve a
newly acquired candidate `e`: if some frame `td` comes strictly after the onset deadline as
the code computes it, `t0 + onsetDelay` rounded to a double, and for some frame `tf` the
progress as the code computes it from `td`, `(tf - td) / dwellTime` with the difference
and the quotient rounded, is at least 1, then exactly one click is dispatched, on `e`;
the progress values passed to `drawRing` are non-decreasing, lie in `[0, 1]`, and the
frame that clicks reports progress `1`. -/
theorem dwell_fires_exactly_once {α : Type} [DecidableEq α] (host : Host α) (k : Timing)
    (s : DwellState α) (e : α) (t0 : ℚ) (rest : List ℚ)
    (hne : s.currentTarget ≠ some e) (hk : 0 < k.onsetDelay) (hdw : 0 < k.dwellTime)
    (h0 : 0 ≤ t0) (ht0 : fl64 t0 = t0) (hsorted : (t0 :: rest).Sorted (· ≤ ·))
    (hspan : ∃ td ∈ rest, fl64 (t0 + k.onsetDelay) < td ∧
      ∃ tf ∈ rest, 1 ≤ fl64 (fl64 (tf - td) / k.dwellTime)) :
    clicks (F64.runTicks host k s (gazeAt e (t0 :: rest))).2.flatten = [e] ∧
    (rings (F64.runTicks host k s (gazeAt e (t0 :: rest))).2.flatten).Sorted (· ≤ ·) ∧
    (∀ p ∈ rings (F64.runTicks host k s (gazeAt e (t0 :: rest))).2.flatten,
      0 ≤ p ∧ p ≤ 1) ∧
    ∃ evs ∈ (F64.runTicks host k s (gazeAt e (t0 :: rest))).2,
      clicks evs = [e] ∧ rings evs = [1] := by
  have hrest : rest.Sorted (· ≤ ·) := (List.pairwise_cons.mp hsorted).2
  obtain ⟨A, td, B, tf, C, hsplit, hA, htd, hB, hfire, htdtf, hBs⟩ :=
    split_cycle64 k hdw (fl64 (t0 + k.onsetDelay)) rest hrest hspan
  subst hsplit
  have hB2 : ∀ b ∈ B, fl64 (t0 + k.onsetDelay) < b ∧
      fl64 (fl64 (b - td) / k.dwellTime) < 1 := by
    intro b hb
    obtain ⟨h1, h2⟩ := hB b hb
    exact ⟨by linarith, h2⟩
  rw [runTicks64_cycle host k s e t0 td tf A B C hne hk h0 ht0 hA htd hB2 (by linarith) hfire]
  have hcl : clicks ([] :: (A.map (fun _ => ([] : List (Ev α))) ++ [Ev.drawRing 0] ::
         (B.map (fun b => [Ev.drawRing (fl64 (fl64 (b - td) / k.dwellTime))]) ++
           fireEvents host e :: C.map (fun _ => []))) : List (List (Ev α))).flatten = [e] := by
    simp only [List.flatten_cons, List.flatten_append, clicks_append, flatten_map_nil,
      flatten_map_ring_clicks, clicks_fireEvents]
    simp [clicks]
  have hrg : rings ([] :: (A.map (fun _ => ([] : List (Ev α))) ++ [Ev.drawRing 0] ::
         (B.map (fun b => [Ev.drawRing (fl64 (fl64 (b - td) / k.dwellTime))]) ++
           fireEvents host e :: C.map (fun _ => []))) : List (List (Ev α))).flatten =
        0 :: (B.map (fun b => fl64 (fl64 (b - td) / k.dwellTime)) ++ [1]) := by
    simp only [List.flatten_cons, List.flatten_append, rings_append, flatten_map_nil,
      flatten_map_ring, rings_fireEvents]
    simp [rings]
  have hbnd : ∀ p ∈ B.map (fun b => fl64 (fl64 (b - td) / k.dwellTime)), 0 ≤ p ∧ p ≤ 1 := by
    intro p hp
    obtain ⟨b, hb, rfl⟩ := List.mem_map.mp hp
    exact ⟨progress64_nonneg k hdw td b (hB b hb).1, (hB b hb).2.le⟩
  refine ⟨hcl, ?_, ?_, ?_⟩
  · rw [hrg]
    simp only [List.Sorted, List.pairwise_cons, List.pairwise_append]
    refine ⟨?_, ?_, ?_, ?_⟩
    · intro p hp
      rcases List.mem_append.mp hp with h | h
      · exact (hbnd p h).1
      · simp at h; rw [h]; norm_num
    · rw [List.pairwise_map]
      exact hBs.imp (fun {a b} hab => progress64_mono k hdw td a b hab)
    · simp
    · intro p hp q hq
      simp at hq
      rw [hq]
      exact (hbnd p hp).2
  · rw [hrg]
    intro p hp
    rcases List.mem_cons.mp hp with h | h
    · rw [h]; norm_num
    · rcases List.mem_append.mp h with h | h
      · exact hbnd p h
      · simp at h; rw [h]; norm_num
  · exact ⟨fireEvents host e, by simp, clicks_fireEvents host e, rings_fireEvents host e⟩

/-- Instance of C1 (amended): frames at 0, 400 and 1200 ms on candidate `7`. -/
theorem dwell_fires_exactly_once_witness :
    clicks (F64.runTicks quietHost defaultTiming initialDwell
      (gazeAt 7 [0, 400, 1200])).2.flatten = [7] ∧
    (rings (F64.runTicks quietHost defaultTiming initialDwell
      (gazeAt 7 [0, 400, 1200])).2.flatten).Sorted (· ≤ ·) ∧
    (∀ p ∈ rings (F64.runTicks quietHost defaultTiming initialDwell
      (gazeAt 7 [0, 400, 1200])).2.flatten, 0 ≤ p ∧ p ≤ 1) ∧
    ∃ evs ∈ (F64.runTicks quietHost defaultTiming initialDwell (gazeAt 7 [0, 400, 1200])).2,
      clicks evs = [7] ∧ rings evs = [1] :=
  dwell_fires_exactly_once quietHost defaultTiming initialDwell 7 0 [400, 1200]
    (by simp [initialDwell]) (by norm_num [defaultTiming]) (by norm_num [defaultTiming])
    (le_refl 0) fl64_zero (by norm_num [List.Sorted])
    ⟨400, by simp, by norm_num [defaultTiming, fl64_300], 1200, by simp,
      by rw [progress64_at_800 400 1200 (by norm_num)]⟩

/-- C1 (as stated) fails: the candidate is resolved on frames at 0, 300 and 1100 ms, a span
of `onsetDelay + dwellTime = 1100` ms, and no click is dispatched during the span. All
values in this run are doubles and every operation on them is exact. -/
theorem dwell_span_without_click :
    (300 : ℚ) + 800 ≤ 1100 - 0 ∧
    (F64.runTicks quietHost defaultTiming initialDwell (gazeAt 7 [0, 300, 1100])).2 =
      [[], [], [Ev.drawRing 0]] ∧
    clicks (F64.runTicks quietHost defaultTiming initialDwell
      (gazeAt 7 [0, 300, 1100])).2.flatten = [] := by
  have hD : fl64 (0 + defaultTiming.onsetDelay) = 300 := by
    norm_num [defaultTiming, fl64_300]
  have hrun : (F64.runTicks quietHost defaultTiming initialDwell
      (gazeAt 7 [0, 300, 1100])).2 = [[], [], [Ev.drawRing 0]] := by
    rw [gazeAt_cons, gazeAt_cons, gazeAt_cons, runTicks64_cons,
      handleDwell64_acquire quietHost defaultTiming initialDwell 7 0 (by simp [initialDwell])
        (by norm_num [defaultTiming]) fl64_zero, hD]
    simp only []
    rw [runTicks64_cons, handleDwell64_wait quietHost defaultTiming none 300 7 300 300
        (le_refl _)]
    simp only []
    rw [runTicks64_cons, handleDwell64_start quietHost defaultTiming 300 7 1100 1100
        (by norm_num) (by norm_num)]
    rfl
  refine ⟨by norm_num, hrun, ?_⟩
  rw [hrun]
  simp [clicks]

/-! ## C2: no re-arming on the target that was just clicked -/

/-- A call of `handleDwell` that dispatches a click leaves both timers cleared and the
clicked element in `currentTarget`. -/
theorem handleDwell_state_of_click {α : Type} [DecidableEq α] (host : Host α) (k : Timing)
    (s : DwellState α) (e : α) (c1 c2 : ℚ)
    (hfire : clicks (handleDwell host k s (some e) c1 c2).events ≠ []) :
    (handleDwell host k s (some e) c1 c2).state = ⟨none, none, some e⟩ := by
  revert hfire
  simp only [handleDwell, activateClick_thrown, cancelDwell]
  split_ifs with h1 h2 h3 h4 h5 h6 h7 <;> simp_all [clicks]

/-- C2 (amended): a call of `handleDwell` that dispatches a click on `e` clears both timers
and leaves `e` in `currentTarget`; while `e` stays the resolved candidate on the following
frames, whatever their clock readings, the state does not change and no event (no onset,
no progress, no second click) is produced. -/
theorem no_rearm_after_click {α : Type} [DecidableEq α] (host : Host α) (k : Timing)
    (s : DwellState α) (e : α) (t : ℚ) (later : List ℚ)
    (hfire : clicks (handleDwell host k s (some e) t t).events ≠ []) :
    (handleDwell host k s (some e) t t).state = ⟨none, none, some e⟩ ∧
    runTicks host k (handleDwell host k s (some e) t t).state (gazeAt e later) =
      (⟨none, none, some e⟩, later.map (fun _ => [])) := by
  have h := handleDwell_state_of_click host k s e t t hfire
  rw [h, runTicks_idle]
  exact ⟨rfl, rfl⟩

/-- Instance of C2 (amended): the click at 1200 ms of a dwell whose countdown started at
400 ms, followed by frames on the same candidate at 1300, 2500 and 4000 ms. -/
theorem no_rearm_after_click_witness :
    (handleDwell quietHost defaultTiming ⟨some 400, some 300, some 7⟩ (some 7) 1200 1200).state
      = ⟨none, none, some 7⟩ ∧
    runTicks quietHost defaultTiming
      (handleDwell quietHost defaultTiming ⟨some 400, some 300, some 7⟩ (some 7) 1200 1200).state
      (gazeAt 7 [1300, 2500, 4000]) =
      (⟨none, none, some 7⟩, [1300, 2500, 4000].map (fun _ => [])) :=
  no_rearm_after_click quietHost defaultTiming ⟨some 400, some 300, some 7⟩ 7 1200
    [1300, 2500, 4000]
    (by
      rw [handleDwell_fire quietHost defaultTiming 400 300 7 1200 1200 (by norm_num)
        (by norm_num) (by norm_num) (by norm_num [defaultTiming])]
      show clicks (fireEvents quietHost 7) ≠ []
      rw [clicks_fireEvents]
      simp)

/-- C2 (as stated) fails: candidate `7` is acquired at 0 ms, clicked at 1200 ms and stays
resolved until 4000 ms, with frames at 1300, 1700 and 2500 ms that would re-arm, start
and complete a second dwell; the frames after the click produce nothing and only one
click is dispatched. -/
theorem held_gaze_clicks_once :
    (runTicks quietHost defaultTiming initialDwell
      (gazeAt 7 [0, 400, 1200, 1300, 1700, 2500, 4000])) =
      (⟨none, none, some 7⟩,
       [[], [Ev.drawRing 0], fireEvents quietHost 7, [], [], [], []]) ∧
    clicks (runTicks quietHost defaultTiming initialDwell
      (gazeAt 7 [0, 400, 1200, 1300, 1700, 2500, 4000])).2.flatten = [7] := by
  have hrun := runTicks_cycle quietHost defaultTiming initialDwell 7 0 400 1200 [] []
    [1300, 1700, 2500, 4000] (by simp [initialDwell]) (by norm_num [defaultTiming])
    (le_refl 0) (by simp) (by norm_num [defaultTiming]) (by simp)
    (by norm_num [defaultTiming]) (by norm_num [defaultTiming])
  simp only [List.nil_append, List.map_nil, List.map_cons] at hrun
  rw [hrun]
  refine ⟨rfl, ?_⟩
  simp only [List.flatten_cons, List.flatten_nil, clicks_append, clicks_fireEvents]
  simp [clicks]

/-! ## C3: a frame without a target clears the timers, not `currentTarget` -/

/-- C3 (amended): a frame on which no target is resolved clears `dwellStart` and
`dwellTimer` and keeps `currentTarget`; with a non-negative `onsetDelay`, the next frame
that resolves a target other than the kept `currentTarget` arms it: the onset deadline
`dwellStart` becomes `now + onsetDelay`, the countdown start `dwellTimer` stays unset and
no event is produced. -/
theorem loss_keeps_currentTarget {α : Type} [DecidableEq α] (host : Host α) (k : Timing)
    (s : DwellState α) (t : ℚ) (e : α) (t2 : ℚ)
    (hk : 0 ≤ k.onsetDelay) (hnew : s.currentTarget ≠ some e) :
    (handleDwell host k s none t t).state = ⟨none, none, s.currentTarget⟩ ∧
    handleDwell host k (handleDwell host k s none t t).state (some e) t2 t2 =
      ⟨⟨none, some (t2 + k.onsetDelay), some e⟩, [], false⟩ := by
  rw [handleDwell_none]
  exact ⟨rfl, handleDwell_acquire host k _ e t2 hnew hk⟩

/-- Instance of C3 (amended): candidate `7` is lost at 100 ms and candidate `8` is
resolved at 200 ms. -/
theorem loss_keeps_currentTarget_witness :
    (handleDwell quietHost defaultTiming ⟨none, some 300, some 7⟩ none 100 100).state =
      ⟨none, none, some 7⟩ ∧
    handleDwell quietHost defaultTiming
      (handleDwell quietHost defaultTiming ⟨none, some 300, some 7⟩ none 100 100).state
      (some 8) 200 200 =
      ⟨⟨none, some (200 + defaultTiming.onsetDelay), some 8⟩, [], false⟩ :=
  loss_keeps_currentTarget quietHost defaultTiming ⟨none, some 300, some 7⟩ 100 8 200
    (by norm_num [defaultTiming]) (by simp)

/-- C3 (as stated) fails: candidate `7` is acquired at 0 ms, lost at 100 ms and resolved
again at 200 ms. After the loss `currentTarget` still holds `7`, and the frame at 200 ms
sets no onset deadline. -/
theorem reacquired_target_is_not_armed :
    (runTicks quietHost defaultTiming initialDwell [(some 7, 0), (none, 100)]).1 =
      ⟨none, none, some 7⟩ ∧
    (runTicks quietHost defaultTiming initialDwell
      [(some 7, 0), (none, 100), (some 7, 200)]) =
      (⟨none, none, some 7⟩, [[], [Ev.clearRing], []]) := by
  have h1 := handleDwell_acquire quietHost defaultTiming initialDwell 7 0
    (by simp [initialDwell]) (by norm_num [defaultTiming])
  constructor
  · rw [runTicks_cons, h1]
    simp only []
    rw [runTicks_cons, handleDwell_none]
    rfl
  · rw [runTicks_cons, h1]
    simp only []
    rw [runTicks_cons, handleDwell_none]
    simp only []
    rw [runTicks_cons, handleDwell_idle]
    rfl

/-! ## C4: a changed candidate abandons the dwell -/

/-- Acquiring a new target behaves like a call on the freshly armed state. -/
theorem handleDwell_change_eq {α : Type} [DecidableEq α] (host : Host α) (k : Timing)
    (s : DwellState α) (e : α) (c1 c2 : ℚ) (hne : s.currentTarget ≠ some e) :
    handleDwell host k s (some e) c1 c2 =
      handleDwell host k ⟨none, some (c1 + k.onsetDelay), some e⟩ (some e) c1 c2 := by
  have hne2 : ¬ (some e = s.currentTarget) := fun h => hne h.symm
  simp [handleDwell, cancelDwell, hne2]

/-- The four possible outcomes of a call on the current target. -/
theorem handleDwell_cases {α : Type} [DecidableEq α] (host : Host α) (k : Timing)
    (tm ds : Option ℚ) (e : α) (c t : ℚ) :
    handleDwell host k ⟨tm, ds, some e⟩ (some e) c t = ⟨⟨tm, ds, some e⟩, [], false⟩ ∨
    (truthy tm = false ∧
      handleDwell host k ⟨tm, ds, some e⟩ (some e) c t =
        ⟨⟨some t, ds, some e⟩, [Ev.drawRing 0], false⟩) ∨
    (truthy tm = true ∧ ∃ p : ℚ, p < 1 ∧
      handleDwell host k ⟨tm, ds, some e⟩ (some e) c t =
        ⟨⟨tm, ds, some e⟩, [Ev.drawRing p], false⟩) ∨
    (truthy tm = true ∧
      handleDwell host k ⟨tm, ds, some e⟩ (some e) c t =
        ⟨⟨none, none, some e⟩, fireEvents host e, false⟩) := by
  by_cases hgate : truthy ds = true ∧ numVal ds < t
  · obtain ⟨hg1, hg2⟩ := hgate
    have hnum : ∀ q : ℚ, numVal (some q) = q := fun _ => rfl
    cases htm : truthy tm with
    | false =>
      right; left
      refine ⟨rfl, ?_⟩
      simp [handleDwell, hg1, hg2, htm, hnum]
    | true =>
      right; right
      by_cases hp : 1 ≤ (t - numVal tm) / k.dwellTime
      · right
        refine ⟨rfl, ?_⟩
        have hmin : min ((t - numVal tm) / k.dwellTime) 1 = 1 := min_eq_right hp
        simp [handleDwell, hg1, hg2, htm, hmin, activateClick_thrown, cancelDwell, fireEvents]
      · left
        refine ⟨rfl, (t - numVal tm) / k.dwellTime, not_le.mp hp, ?_⟩
        have hmin : min ((t - numVal tm) / k.dwellTime) 1 = (t - numVal tm) / k.dwellTime :=
          min_eq_left (not_le.mp hp).le
        simp [handleDwell, hg1, hg2, htm, hmin, hp]
  · left
    simp [handleDwell, hgate]

theorem clicks_drawRing {α : Type} (p : ℚ) : clicks [(Ev.drawRing p : Ev α)] = [] := rfl

theorem rings_drawRing {α : Type} (p : ℚ) : rings [(Ev.drawRing p : Ev α)] = [p] := rfl

/-- Every click dispatched by a call of `handleDwell` is on the candidate passed to it. -/
theorem handleDwell_click_on_resolved {α : Type} [DecidableEq α] (host : Host α)
    (k : Timing) (s : DwellState α) (el : Option α) (c1 c2 : ℚ) (x : α)
    (hx : x ∈ clicks (handleDwell host k s el c1 c2).events) : el = some x := by
  cases el with
  | none => simp [handleDwell, cancelDwell, clicks] at hx
  | some e =>
    have key : ∀ tm ds, x ∈ clicks (handleDwell host k ⟨tm, ds, some e⟩ (some e) c1 c2).events →
        e = x := by
      intro tm ds h
      rcases handleDwell_cases host k tm ds e c1 c2 with h1 | ⟨_, h1⟩ | ⟨_, p, _, h1⟩ | ⟨_, h1⟩
      · rw [h1] at h; simp [clicks] at h
      · rw [h1] at h; simp [clicks] at h
      · rw [h1] at h; simp [clicks] at h
      · rw [h1] at h
        simp only [clicks_fireEvents, List.mem_singleton] at h
        exact h.symm
    by_cases hcur : s.currentTarget = some e
    · obtain ⟨tm, ds, cur⟩ := s
      simp only at hcur
      subst hcur
      rw [key tm ds hx]
    · rw [handleDwell_change_eq host k s e c1 c2 hcur] at hx
      rw [key _ _ hx]

/-- From a state whose countdown has not started, a call either draws nothing and leaves
the countdown unstarted, or draws progress 0; it never clicks. -/
theorem handleDwell_cold {α : Type} [DecidableEq α] (host : Host α) (k : Timing)
    (s : DwellState α) (el : Option α) (c t : ℚ) (hcold : truthy s.dwellTimer = false) :
    clicks (handleDwell host k s el c t).events = [] ∧
    ((rings (handleDwell host k s el c t).events = [] ∧
        truthy (handleDwell host k s el c t).state.dwellTimer = false) ∨
      rings (handleDwell host k s el c t).events = [0]) := by
  cases el with
  | none => simp [handleDwell, cancelDwell, rings, clicks, truthy]
  | some e =>
    have key : ∀ tm ds, truthy tm = false →
        clicks (handleDwell host k ⟨tm, ds, some e⟩ (some e) c t).events = [] ∧
        ((rings (handleDwell host k ⟨tm, ds, some e⟩ (some e) c t).events = [] ∧
          truthy (handleDwell host k ⟨tm, ds, some e⟩ (some e) c t).state.dwellTimer = false) ∨
        rings (handleDwell host k ⟨tm, ds, some e⟩ (some e) c t).events = [0]) := by
      intro tm ds htm
      rcases handleDwell_cases host k tm ds e c t with h1 | ⟨_, h1⟩ | ⟨h0, _⟩ | ⟨h0, _⟩
      · rw [h1]
        exact ⟨rfl, Or.inl ⟨rfl, htm⟩⟩
      · rw [h1]
        exact ⟨rfl, Or.inr rfl⟩
      · rw [htm] at h0; cases h0
      · rw [htm] at h0; cases h0
    by_cases hcur : s.currentTarget = some e
    · obtain ⟨tm, ds, cur⟩ := s
      simp only at hcur hcold
      subst hcur
      exact key tm ds hcold
    · rw [handleDwell_change_eq host k s e c t hcur]
      exact key none _ rfl

/-- A call on which the resolved candidate differs from `currentTarget` dispatches no
click; it either draws nothing and leaves the countdown unstarted, or draws progress 0. -/
theorem handleDwell_change {α : Type} [DecidableEq α] (host : Host α) (k : Timing)
    (s : DwellState α) (el : Option α) (c t : ℚ) (hchange : el ≠ s.currentTarget) :
    clicks (handleDwell host k s el c t).events = [] ∧
    ((rings (handleDwell host k s el c t).events = [] ∧
        truthy (handleDwell host k s el c t).state.dwellTimer = false) ∨
      rings (handleDwell host k s el c t).events = [0]) := by
  cases el with
  | none => simp [handleDwell, cancelDwell, rings, clicks, truthy]
  | some e =>
    rw [handleDwell_change_eq host k s e c t (fun h => hchange h.symm)]
    exact handleDwell_cold host k _ (some e) c t rfl

theorem runTicks_first_ring_cold {α : Type} [DecidableEq α] (host : Host α) (k : Timing)
    (ticks : List (Option α × ℚ)) :
    ∀ s : DwellState α, truthy s.dwellTimer = false →
      (rings (runTicks host k s ticks).2.flatten).head? = none ∨
      (rings (runTicks host k s ticks).2.flatten).head? = some 0 := by
  induction ticks with
  | nil => intro s _; left; simp [runTicks, rings]
  | cons tk ticks ih =>
    intro s hcold
    obtain ⟨el, t⟩ := tk
    rw [runTicks_cons]
    simp only [List.flatten_cons, rings_append]
    rcases (handleDwell_cold host k s el t t hcold).2 with ⟨h1, h3⟩ | h1
    · rw [h1, List.nil_append]
      exact ih _ h3
    · right
      rw [h1]
      rfl

theorem runTicks_clicks_on_resolved {α : Type} [DecidableEq α] (host : Host α) (k : Timing)
    (ticks : List (Option α × ℚ)) :
    ∀ s : DwellState α,
      List.Forall₂ (fun tick evs => ∀ x ∈ clicks evs, tick.1 = some x) ticks
        (runTicks host k s ticks).2 := by
  induction ticks with
  | nil => intro s; simp [runTicks]
  | cons tk ticks ih =>
    intro s
    obtain ⟨el, t⟩ := tk
    rw [runTicks_cons]
    exact List.Forall₂.cons (fun x hx => handleDwell_click_on_resolved host k s el t t x hx)
      (ih _)

/-- C4: for every configuration, state and sequence of frames, on a frame on which the
resolved candidate differs from `currentTarget` (another candidate or none) no click is
dispatched; on that frame and all later frames every click is on the candidate resolved on
the same frame; and the first progress value passed to `drawRing` from that frame on, if
there is one, is 0. -/
theorem abandoned_dwell_never_clicks {α : Type} [DecidableEq α] (host : Host α)
    (cfg : Option EyeNavConfig) (s : DwellState α) (el : Option α) (t : ℚ)
    (rest : List (Option α × ℚ)) (hchange : el ≠ s.currentTarget) :
    clicks (handleDwell host (initTiming cfg) s el t t).events = [] ∧
    List.Forall₂ (fun tick evs => ∀ x ∈ clicks evs, tick.1 = some x) ((el, t) :: rest)
      (runTicks host (initTiming cfg) s ((el, t) :: rest)).2 ∧
    ((rings (runTicks host (initTiming cfg) s ((el, t) :: rest)).2.flatten).head? = none ∨
      (rings (runTicks host (initTiming cfg) s ((el, t) :: rest)).2.flatten).head? =
        some 0) := by
  have hstep := handleDwell_change host (initTiming cfg) s el t t hchange
  refine ⟨hstep.1, runTicks_clicks_on_resolved host (initTiming cfg) _ s, ?_⟩
  rw [runTicks_cons]
  simp only [List.flatten_cons, rings_append]
  rcases hstep.2 with ⟨h1, h3⟩ | h1
  · rw [h1, List.nil_append]
    exact runTicks_first_ring_cold host (initTiming cfg) rest _ h3
  · right
    rw [h1]
    rfl

/-- Instance of C4: with the default configuration, while the dwell on candidate `7` is
counting, candidate `8` is resolved at 500 ms and stays resolved at 900 and 1700 ms. -/
theorem abandoned_dwell_never_clicks_witness :
    clicks (handleDwell quietHost (initTiming none) ⟨some 400, some 300, some 7⟩ (some 8)
      500 500).events = [] ∧
    List.Forall₂ (fun tick evs => ∀ x ∈ clicks evs, tick.1 = some x)
      ((some 8, 500) :: gazeAt 8 [900, 1700])
      (runTicks quietHost (initTiming none) ⟨some 400, some 300, some 7⟩
        ((some 8, 500) :: gazeAt 8 [900, 1700])).2 ∧
    ((rings (runTicks quietHost (initTiming none) ⟨some 400, some 300, some 7⟩
        ((some 8, 500) :: gazeAt 8 [900, 1700])).2.flatten).head? = none ∨
      (rings (runTicks quietHost (initTiming none) ⟨some 400, some 300, some 7⟩
        ((some 8, 500) :: gazeAt 8 [900, 1700])).2.flatten).head? = some 0) :=
  abandoned_dwell_never_clicks quietHost none ⟨some 400, some 300, some 7⟩ (some 8)
    500 (gazeAt 8 [900, 1700]) (by simp)

/-! ## C5: a non-finite gaze point skips the frame -/

/-- C5 (amended): on a call of `render` whose gaze point is non-finite in either axis the
frame is skipped: `handleDwell` is not called, nothing is drawn or dispatched, and the
whole state, `dwellStart` and `dwellTimer` included, is left as it was, so that an onset
or countdown in progress is neither cancelled nor restarted. -/
theorem render_skips_nonfinite {α : Type} [DecidableEq α] (host : Host α) (k : Timing)
    (page : Page α) (st : CursorState α) (now : ℚ)
    (hbad : st.targetX.isFinite = false ∨ st.targetY.isFinite = false) :
    render host k page st now = ⟨st, [], false⟩ := by
  unfold render
  rcases hbad with h | h
  · cases hx : st.targetX with
    | fin q => rw [hx] at h; cases h
    | nan => rfl
    | posInf => rfl
    | negInf => rfl
  · cases hy : st.targetY with
    | fin q => rw [hy] at h; cases h
    | nan => cases st.targetX <;> rfl
    | posInf => cases st.targetX <;> rfl
    | negInf => cases st.targetX <;> rfl

/-- Instance of C5 (amended): `targetX` is `NaN` during a countdown on candidate `7`. -/
theorem render_skips_nonfinite_witness :
    render quietHost defaultTiming demoPage
      ⟨50, 25, JsNum.nan, JsNum.fin 25, ⟨some 310, some 300, some 7⟩⟩ 500 =
      ⟨⟨50, 25, JsNum.nan, JsNum.fin 25, ⟨some 310, some 300, some 7⟩⟩, [], false⟩ :=
  render_skips_nonfinite quietHost defaultTiming demoPage
    ⟨50, 25, JsNum.nan, JsNum.fin 25, ⟨some 310, some 300, some 7⟩⟩ 500 (Or.inl rfl)

theorem demo_resolve : findNearestClickable demoPage.rect demoPage.clickables 50 25 = some 7 := by
  norm_num [findNearestClickable, nearestLoop, demoPage, distSq, axisGap, snapRadiusSq]

/-- C5 (as stated) fails: a countdown on candidate `7` started at 310 ms; the frame at
500 ms has a `NaN` gaze point and leaves `dwellStart` and `dwellTimer` set; when a valid
point on the same candidate arrives and the frame at 516 ms runs, the countdown carries on
with progress `(516 - 310) / 800` instead of a restarted onset delay. -/
theorem nonfinite_frame_keeps_dwell :
    (render quietHost defaultTiming demoPage
      ⟨50, 25, JsNum.nan, JsNum.fin 25, ⟨some 310, some 300, some 7⟩⟩ 500).state.dwell =
      ⟨some 310, some 300, some 7⟩ ∧
    (render quietHost defaultTiming demoPage
      (onGazeUpdate (render quietHost defaultTiming demoPage
        ⟨50, 25, JsNum.nan, JsNum.fin 25, ⟨some 310, some 300, some 7⟩⟩ 500).state
        (JsNum.fin 50) (JsNum.fin 25)) 516).events =
      [Ev.moveDot 50 25, Ev.drawRing (103 / 400)] := by
  have h1 : render quietHost defaultTiming demoPage
      ⟨50, 25, JsNum.nan, JsNum.fin 25, ⟨some 310, some 300, some 7⟩⟩ 500 =
      ⟨⟨50, 25, JsNum.nan, JsNum.fin 25, ⟨some 310, some 300, some 7⟩⟩, [], false⟩ := rfl
  rw [h1]
  refine ⟨rfl, ?_⟩
  have hx : (50 : ℚ) + (50 - 50) * (1 / 2) = 50 := by norm_num
  have hy : (25 : ℚ) + (25 - 25) * (1 / 2) = 25 := by norm_num
  simp only [render, onGazeUpdate, hx, hy, demo_resolve]
  rw [handleDwell_progress quietHost defaultTiming 310 300 7 516 516 (by norm_num)
    (by norm_num) (by norm_num) (by norm_num [defaultTiming])]
  norm_num [defaultTiming]

/-! ## C6: the frame on which the click is dispatched -/

theorem map_clicks_nil {α β : Type} (l : List β) :
    (l.map (fun _ => ([] : List (Ev α)))).map clicks = List.replicate l.length [] := by
  induction l with
  | nil => rfl
  | cons x l ih => simp [List.replicate_succ, ih, clicks]

theorem map_clicks_ring {α : Type} (f : ℚ → ℚ) (l : List ℚ) :
    (l.map (fun b => [(Ev.drawRing (f b) : Ev α)])).map clicks =
      List.replicate l.length [] := by
  induction l with
  | nil => rfl
  | cons x l ih => simp [List.replicate_succ, ih, clicks]

/-- C6 (amended): in double arithmetic, with positive `onsetDelay` and `dwellTime`, let a
newly acquired candidate be resolved on frames at the double `t0 ≥ 0`, then `A`, `td`, `B`,
`tf`, `C`, where `td` is the first frame strictly after the onset deadline as the code
computes it (`t0 + onsetDelay` rounded to a double) and `tf` is the first frame after `td`
whose progress as the code computes it (`(tf - td) / dwellTime`, difference and quotient
rounded) is at least 1. Then the click is dispatched on the frame `tf` and on no other
frame, and `tf` is strictly later than `td`. -/
theorem click_on_first_frame_after_countdown {α : Type} [DecidableEq α] (host : Host α)
    (k : Timing) (s : DwellState α) (e : α) (t0 td tf : ℚ) (A B C : List ℚ)
    (hne : s.currentTarget ≠ some e) (hk : 0 < k.onsetDelay) (hdw : 0 < k.dwellTime)
    (h0 : 0 ≤ t0) (ht0 : fl64 t0 = t0)
    (hA : ∀ a ∈ A, a ≤ fl64 (t0 + k.onsetDelay)) (htd : fl64 (t0 + k.onsetDelay) < td)
    (hB : ∀ b ∈ B, td ≤ b ∧ fl64 (fl64 (b - td) / k.dwellTime) < 1)
    (htf : 1 ≤ fl64 (fl64 (tf - td) / k.dwellTime)) :
    (F64.runTicks host k s (gazeAt e (t0 :: (A ++ td :: (B ++ tf :: C))))).2.map clicks =
      List.replicate (1 + A.length + 1 + B.length) [] ++ [e] :: List.replicate C.length [] ∧
    td < tf := by
  have hB2 : ∀ b ∈ B, fl64 (t0 + k.onsetDelay) < b ∧
      fl64 (fl64 (b - td) / k.dwellTime) < 1 := by
    intro b hb
    obtain ⟨h1, h2⟩ := hB b hb
    exact ⟨by linarith, h2⟩
  have hlate : td < tf := by
    by_contra hcon
    have := progress64_nonpos k hdw td tf (not_lt.mp hcon)
    linarith
  rw [runTicks64_cycle host k s e t0 td tf A B C hne hk h0 ht0 hA htd hB2 (by linarith) htf]
  refine ⟨?_, hlate⟩
  simp only [List.map_cons, List.map_append, map_clicks_nil, map_clicks_ring,
    clicks_fireEvents]
  simp [List.replicate_add, clicks]

/-- Instance of C6 (amended): `onsetDelay = 300`, `dwellTime = 800`, frames every 100 ms
from 0 to 1200 ms; the countdown starts at 400 ms and the click is dispatched on the
thirteenth frame, at 1200 ms. -/
theorem scenario_click_at_1200 :
    (F64.runTicks quietHost defaultTiming initialDwell
      (gazeAt 7 (0 :: ([100, 200, 300] ++ 400 ::
        ([500, 600, 700, 800, 900, 1000, 1100] ++ 1200 :: []))))).2.map clicks =
      List.replicate (1 + [100, 200, 300].length + 1 +
        [500, 600, 700, 800, 900, 1000, 1100].length) [] ++
        [7] :: List.replicate ([] : List ℚ).length [] ∧
    (400 : ℚ) < 1200 :=
  click_on_first_frame_after_countdown quietHost defaultTiming initialDwell 7 0 400 1200
    [100, 200, 300] [500, 600, 700, 800, 900, 1000, 1100] []
    (by simp [initialDwell]) (by norm_num [defaultTiming]) (by norm_num [defaultTiming])
    (le_refl 0) fl64_zero
    (by
      intro a ha
      simp at ha
      rcases ha with rfl | rfl | rfl <;> norm_num [defaultTiming, fl64_300])
    (by norm_num [defaultTiming, fl64_300])
    (by
      intro b hb
      simp at hb
      rcases hb with rfl | rfl | rfl | rfl | rfl | rfl | rfl <;>
        exact ⟨by norm_num, progress64_lt_one_of_le_700 _ _ (by norm_num)⟩)
    (by rw [progress64_at_800 400 1200 (by norm_num)])

/-- C6 (as stated) fails: with `onsetDelay = 300`, `dwellTime = 800` and frames every
100 ms from 0 to 1200 ms, the frame at 1100 ms dispatches no click; the click is dispatched
on the frame at 1200 ms. -/
theorem scenario_no_click_at_1100 :
    ([0, 100, 200, 300, 400, 500, 600, 700, 800, 900, 1000, 1100, 1200] : List ℚ).getD 11 0
      = 1100 ∧
    clicks ((F64.runTicks quietHost defaultTiming initialDwell
      (gazeAt 7 [0, 100, 200, 300, 400, 500, 600, 700, 800, 900, 1000, 1100, 1200])).2.getD
        11 []) = [] ∧
    clicks ((F64.runTicks quietHost defaultTiming initialDwell
      (gazeAt 7 [0, 100, 200, 300, 400, 500, 600, 700, 800, 900, 1000, 1100, 1200])).2.getD
        12 []) = [7] := by
  have hrun := runTicks64_cycle quietHost defaultTiming initialDwell 7 0 400 1200
    [100, 200, 300] [500, 600, 700, 800, 900, 1000, 1100] []
    (by simp [initialDwell]) (by norm_num [defaultTiming]) (le_refl 0) fl64_zero
    (by
      intro a ha
      simp at ha
      rcases ha with rfl | rfl | rfl <;> norm_num [defaultTiming, fl64_300])
    (by norm_num [defaultTiming, fl64_300])
    (by
      intro b hb
      simp at hb
      rcases hb with rfl | rfl | rfl | rfl | rfl | rfl | rfl <;>
        exact ⟨by norm_num [defaultTiming, fl64_300],
          progress64_lt_one_of_le_700 _ _ (by norm_num)⟩)
    (by norm_num [defaultTiming, fl64_300])
    (by rw [progress64_at_800 400 1200 (by norm_num)])
  simp only [List.cons_append, List.nil_append, List.map_cons, List.map_nil] at hrun
  rw [hrun]
  refine ⟨rfl, ?_, ?_⟩
  · simp [clicks]
  · simp only [List.getD_cons_succ, List.getD_cons_zero, clicks_fireEvents]

/-! ## C7: the nearest clickable within the snap radius -/

/-- Rounding commutes with `Math.max`: the computed gap along one axis is the exact gap
rounded to a double. -/
theorem axisGap64_eq (lo hi c : ℚ) : F64.axisGap lo hi c = fl64 (axisGap lo hi c) := by
  have hm : Monotone fl64 := fun _ _ h => fl64_mono h
  unfold F64.axisGap axisGap
  rw [hm.map_max, hm.map_max, fl64_zero]

/-- The loop of `findNearestClickable` keeps the earliest element seen so far whose
computed distance is least. -/
theorem nearestLoop64_spec {α : Type} (hypot : ℚ → ℚ → ℚ) (rect : α → Rect) (cx cy : ℚ)
    (rest : List α) :
    ∀ (seen : List α) (best : Option α) (bestDist : Option ℚ),
      ((best = none ∧ bestDist = none ∧
          ∀ c ∈ seen, 60 ≤ F64.dist hypot (rect c) cx cy) ∨
        ∃ pre b post, seen = pre ++ b :: post ∧ best = some b ∧
          bestDist = some (F64.dist hypot (rect b) cx cy) ∧
          F64.dist hypot (rect b) cx cy < 60 ∧
          (∀ c ∈ pre, F64.dist hypot (rect b) cx cy < F64.dist hypot (rect c) cx cy) ∧
          ∀ c ∈ post, F64.dist hypot (rect b) cx cy ≤ F64.dist hypot (rect c) cx cy) →
      ((F64.nearestLoop hypot rect cx cy rest best bestDist = none ∧
          ∀ c ∈ seen ++ rest, 60 ≤ F64.dist hypot (rect c) cx cy) ∨
        ∃ pre b post, seen ++ rest = pre ++ b :: post ∧
          F64.nearestLoop hypot rect cx cy rest best bestDist = some b ∧
          F64.dist hypot (rect b) cx cy < 60 ∧
          (∀ c ∈ pre, F64.dist hypot (rect b) cx cy < F64.dist hypot (rect c) cx cy) ∧
          ∀ c ∈ post, F64.dist hypot (rect b) cx cy ≤ F64.dist hypot (rect c) cx cy) := by
  induction rest with
  | nil =>
    intro seen best bd h
    rcases h with ⟨hb, _, hall⟩ | ⟨pre, b, post, hs, hb, _, hlt, hpre, hpost⟩
    · left
      exact ⟨by simp [F64.nearestLoop, hb], by simpa using hall⟩
    · right
      exact ⟨pre, b, post, by simpa using hs, by simp [F64.nearestLoop, hb], hlt, hpre, hpost⟩
  | cons el rest ih =>
    intro seen best bd h
    have hseen : seen ++ el :: rest = (seen ++ [el]) ++ rest := by simp
    rw [hseen]
    by_cases hacc : (bd.all fun b => decide (F64.dist hypot (rect el) cx cy < b)) = true ∧
        F64.dist hypot (rect el) cx cy < 60
    · have hstep : F64.nearestLoop hypot rect cx cy (el :: rest) best bd =
          F64.nearestLoop hypot rect cx cy rest (some el)
            (some (F64.dist hypot (rect el) cx cy)) := by
        simp only [F64.nearestLoop, if_pos hacc]
      rw [hstep]
      apply ih
      right
      refine ⟨seen, el, [], rfl, rfl, rfl, hacc.2, ?_, by simp⟩
      rcases h with ⟨_, _, hall⟩ | ⟨pre, b, post, hs, _, hbd, hlt, hpre, hpost⟩
      · intro c hc
        exact lt_of_lt_of_le hacc.2 (hall c hc)
      · have hlt2 : F64.dist hypot (rect el) cx cy < F64.dist hypot (rect b) cx cy := by
          have := hacc.1
          rw [hbd] at this
          simpa using this
        intro c hc
        rw [hs] at hc
        rcases List.mem_append.mp hc with hc | hc
        · exact lt_trans hlt2 (hpre c hc)
        · rcases List.mem_cons.mp hc with hc | hc
          · rw [hc]; exact hlt2
          · exact lt_of_lt_of_le hlt2 (hpost c hc)
    · have hstep : F64.nearestLoop hypot rect cx cy (el :: rest) best bd =
          F64.nearestLoop hypot rect cx cy rest best bd := by
        simp only [F64.nearestLoop, if_neg hacc]
      rw [hstep]
      apply ih
      rcases h with ⟨hb, hbd, hall⟩ | ⟨pre, b, post, hs, hb, hbd, hlt, hpre, hpost⟩
      · left
        refine ⟨hb, hbd, ?_⟩
        intro c hc
        rcases List.mem_append.mp hc with hc | hc
        · exact hall c hc
        · have hc2 : c = el := by simpa using hc
          rw [hc2]
          by_contra hcon
          exact hacc ⟨by simp [hbd], not_le.mp hcon⟩
      · right
        refine ⟨pre, b, post ++ [el], by simp [hs], hb, hbd, hlt, hpre, ?_⟩
        intro c hc
        rcases List.mem_append.mp hc with hc | hc
        · exact hpost c hc
        · have hc2 : c = el := by simpa using hc
          rw [hc2]
          by_contra hcon
          have hlt2 := not_le.mp hcon
          exact hacc ⟨by simp [hbd, hlt2], lt_trans hlt2 hlt⟩

/-- C7 (amended): for every `Math.hypot`, every point and every list of candidates, let the
computed distance of a candidate be `Math.hypot(dx, dy)` with
`dx = Math.max(r.left - cx, 0, cx - r.right)` and `dy = Math.max(r.top - cy, 0, cy - r.bottom)`,
the differences rounded to doubles. Then `findNearestClickable` either returns none, and
every candidate has a computed distance of at least 60 (in particular when the list is
empty), or returns a candidate `b` of the list whose computed distance is strictly below 60,
strictly below that of every candidate before it and at most that of every candidate after
it: the earliest candidate at the least computed distance. A candidate whose computed
distance is exactly 60 is therefore never returned. -/
theorem nearest_by_computed_distance {α : Type} (hypot : ℚ → ℚ → ℚ) (rect : α → Rect)
    (clickables : List α) (cx cy : ℚ) :
    let d : α → ℚ := fun c =>
      hypot (max (max (fl64 ((rect c).left - cx)) 0) (fl64 (cx - (rect c).right)))
        (max (max (fl64 ((rect c).top - cy)) 0) (fl64 (cy - (rect c).bottom)))
    (F64.findNearestClickable hypot rect clickables cx cy = none ∧
      ∀ c ∈ clickables, 60 ≤ d c) ∨
    ∃ pre b post, clickables = pre ++ b :: post ∧
      F64.findNearestClickable hypot rect clickables cx cy = some b ∧
      d b < 60 ∧ (∀ c ∈ pre, d b < d c) ∧ ∀ c ∈ post, d b ≤ d c := by
  have h := nearestLoop64_spec hypot rect cx cy clickables [] none none
    (Or.inl ⟨rfl, rfl, by simp⟩)
  simpa [F64.findNearestClickable, F64.dist, F64.axisGap] using h

theorem log2_25 : Int.log 2 (25 : ℚ) = 4 := by
  have := log_eq_of_bounds 25 4 (by norm_num) (by norm_num)
  rwa [abs_of_pos (by norm_num : (0:ℚ) < 25)] at this

theorem log2_2 : Int.log 2 (2 : ℚ) = 1 := by
  have := log_eq_of_bounds 2 1 (by norm_num) (by norm_num)
  rwa [abs_of_pos (by norm_num : (0:ℚ) < 2)] at this

/-- The reference `Math.hypot` on the 3-4-5 triangle. -/
theorem hypot64_3_4 : F64.hypot 3 4 = 5 := by
  have hm : (3 * 3 + 4 * 4 : ℚ) / ((2 : ℚ) ^ (Int.log 2 (3 * 3 + 4 * 4 : ℚ) / 2 - 52) *
      (2 : ℚ) ^ (Int.log 2 (3 * 3 + 4 * 4 : ℚ) / 2 - 52)) =
      ((5 * 2 ^ 50 * (5 * 2 ^ 50) : ℕ) : ℚ) := by
    have : (3 * 3 + 4 * 4 : ℚ) = 25 := by norm_num
    rw [this, log2_25]
    norm_num
  unfold F64.hypot F64.sqrt
  simp only [hm, Nat.floor_natCast, Nat.sqrt_eq]
  have : (3 * 3 + 4 * 4 : ℚ) = 25 := by norm_num
  rw [this, log2_25]
  norm_num

/-- The reference `Math.hypot` on the unit square: the double nearest to `√2`. -/
theorem hypot64_1_1 : F64.hypot 1 1 = 6369051672525773 / 2 ^ 52 := by
  have hs : Nat.sqrt (2 ^ 105) = 6369051672525772 := by
    symm
    rw [Nat.eq_sqrt]
    constructor <;> norm_num
  have hm : (1 * 1 + 1 * 1 : ℚ) / ((2 : ℚ) ^ (Int.log 2 (1 * 1 + 1 * 1 : ℚ) / 2 - 52) *
      (2 : ℚ) ^ (Int.log 2 (1 * 1 + 1 * 1 : ℚ) / 2 - 52)) = ((2 ^ 105 : ℕ) : ℚ) := by
    have : (1 * 1 + 1 * 1 : ℚ) = 2 := by norm_num
    rw [this, log2_2]
    norm_num
  unfold F64.hypot F64.sqrt
  simp only [hm, Nat.floor_natCast, hs]
  have : (1 * 1 + 1 * 1 : ℚ) = 2 := by norm_num
  rw [this, log2_2]
  norm_num

theorem fl64_below_60 : fl64 (60 - 1 / 2 ^ 50) = 60 := by
  rw [fl64_eq (60 - 1 / 2 ^ 50) 5 (60 * 2 ^ 47) (by norm_num) (by norm_num)
    (by rw [abs_lt]; constructor <;> norm_num)]
  norm_num

/-- C7 (as stated) fails in the code's arithmetic: a candidate whose rectangle spans
`-10 ≤ x ≤ 2 ^ -50`, `-10 ≤ y ≤ 10` is at the distance `60 - 2 ^ -50` from the point
`(60, 0)`, strictly inside the snap radius, and it is the only candidate; the difference
`cx - r.right` rounds to 60, the test `dist < 60` fails and none is returned. -/
theorem inside_radius_not_returned :
    distSq ⟨-10, -10, 1 / 2 ^ 50, 10⟩ 60 0 = (60 - 1 / 2 ^ 50) ^ 2 ∧
    distSq ⟨-10, -10, 1 / 2 ^ 50, 10⟩ 60 0 < snapRadiusSq ∧
    F64.findNearestClickable F64.hypot
      (fun _ : ℕ => (⟨-10, -10, 1 / 2 ^ 50, 10⟩ : Rect)) [7] 60 0 = none := by
  refine ⟨?_, ?_, ?_⟩
  · norm_num [distSq, axisGap]
  · norm_num [distSq, axisGap, snapRadiusSq]
  · have hx : F64.axisGap (-10) (1 / 2 ^ 50) 60 = 60 := by
      rw [axisGap64_eq]
      have : axisGap (-10) (1 / 2 ^ 50) 60 = 60 - 1 / 2 ^ 50 := by norm_num [axisGap]
      rw [this, fl64_below_60]
    have hy : F64.axisGap (-10) 10 0 = 0 := by
      rw [axisGap64_eq]
      have : axisGap (-10) 10 0 = 0 := by norm_num [axisGap]
      rw [this, fl64_zero]
    simp only [F64.findNearestClickable, F64.nearestLoop, F64.dist, hx, hy, F64.hypot]
    simp

/-! ## C8: the distance to a rectangle -/

theorem axisGap_nonneg (lo hi c : ℚ) : 0 ≤ axisGap lo hi c := by
  unfold axisGap
  exact le_max_of_le_left (le_max_right _ _)

theorem axisGap_eq_zero_iff (lo hi c : ℚ) : axisGap lo hi c = 0 ↔ lo ≤ c ∧ c ≤ hi := by
  unfold axisGap
  constructor
  · intro h
    have h1 : lo - c ≤ 0 := by
      rw [← h]; exact le_max_of_le_left (le_max_left _ _)
    have h2 : c - hi ≤ 0 := by
      rw [← h]; exact le_max_right _ _
    constructor <;> linarith
  · rintro ⟨h1, h2⟩
    have e1 : max (lo - c) 0 = 0 := max_eq_right (by linarith)
    rw [e1]
    exact max_eq_left (by linarith)

/-- No point of the interval is closer to `c` than the gap. -/
theorem axisGap_le_abs (lo hi c : ℚ) (p : ℝ) (h1 : (lo : ℝ) ≤ p) (h2 : p ≤ (hi : ℝ)) :
    ((axisGap lo hi c : ℚ) : ℝ) ≤ |p - (c : ℝ)| := by
  unfold axisGap
  push_cast
  refine max_le (max_le ?_ (abs_nonneg _)) ?_
  · have : (lo : ℝ) - c ≤ p - c := by linarith
    exact le_trans this (le_abs_self _)
  · have : (c : ℝ) - hi ≤ -(p - c) := by linarith
    exact le_trans this (neg_le_abs _)

/-- The point of the interval nearest to `c` is at distance `axisGap`. -/
theorem axisGap_attained (lo hi c : ℚ) (h : lo ≤ hi) :
    lo ≤ max lo (min c hi) ∧ max lo (min c hi) ≤ hi ∧
      (max lo (min c hi) - c) ^ 2 = axisGap lo hi c ^ 2 := by
  refine ⟨le_max_left _ _, max_le h (min_le_right _ _), ?_⟩
  unfold axisGap
  rcases le_total c lo with hc | hc
  · have e1 : min c hi = c := min_eq_left (by linarith)
    have e2 : max lo c = lo := max_eq_left hc
    have e3 : max (lo - c) 0 = lo - c := max_eq_left (by linarith)
    have e4 : max (lo - c) (c - hi) = lo - c := max_eq_left (by linarith)
    rw [e1, e2, e3, e4]
  · rcases le_total c hi with hc2 | hc2
    · have e1 : min c hi = c := min_eq_left hc2
      have e2 : max lo c = c := max_eq_right hc
      have e3 : max (lo - c) 0 = 0 := max_eq_right (by linarith)
      have e4 : max (0 : ℚ) (c - hi) = 0 := max_eq_left (by linarith)
      rw [e1, e2, e3, e4]
      ring
    · have e1 : min c hi = hi := min_eq_right hc2
      have e2 : max lo hi = hi := max_eq_right h
      have e3 : max (lo - c) 0 = 0 := max_eq_right (by linarith)
      have e4 : max (0 : ℚ) (c - hi) = c - hi := max_eq_right (by linarith)
      rw [e1, e2, e3, e4]
      ring

theorem distSq_nonneg (r : Rect) (cx cy : ℚ) : 0 ≤ distSq r cx cy := by
  unfold distSq
  positivity

/-- C8: for a rectangle with `left ≤ right` and `top ≤ bottom` (zero area included),
`dx² + dy²` is the minimum squared distance from the point to the rectangle: no point of
the closed rectangle (with real coordinates) is nearer, some point of it is at exactly that
distance, and the value is 0 exactly when the point lies inside or on the rectangle. -/
theorem distSq_is_rect_distance (r : Rect) (cx cy : ℚ)
    (hx : r.left ≤ r.right) (hy : r.top ≤ r.bottom) :
    (∀ px py : ℝ, (r.left : ℝ) ≤ px → px ≤ (r.right : ℝ) → (r.top : ℝ) ≤ py →
      py ≤ (r.bottom : ℝ) →
      ((distSq r cx cy : ℚ) : ℝ) ≤ (px - (cx : ℝ)) ^ 2 + (py - (cy : ℝ)) ^ 2) ∧
    (∃ px py : ℚ, r.left ≤ px ∧ px ≤ r.right ∧ r.top ≤ py ∧ py ≤ r.bottom ∧
      (px - cx) ^ 2 + (py - cy) ^ 2 = distSq r cx cy) ∧
    (distSq r cx cy = 0 ↔ (r.left ≤ cx ∧ cx ≤ r.right ∧ r.top ≤ cy ∧ cy ≤ r.bottom)) := by
  refine ⟨?_, ?_, ?_⟩
  · intro px py h1 h2 h3 h4
    have gx := axisGap_le_abs r.left r.right cx px h1 h2
    have gy := axisGap_le_abs r.top r.bottom cy py h3 h4
    have nx : (0 : ℝ) ≤ ((axisGap r.left r.right cx : ℚ) : ℝ) := by
      exact_mod_cast axisGap_nonneg r.left r.right cx
    have ny : (0 : ℝ) ≤ ((axisGap r.top r.bottom cy : ℚ) : ℝ) := by
      exact_mod_cast axisGap_nonneg r.top r.bottom cy
    have sx := pow_le_pow_left₀ nx gx 2
    have sy := pow_le_pow_left₀ ny gy 2
    rw [sq_abs] at sx sy
    unfold distSq
    push_cast
    linarith
  · obtain ⟨a1, a2, a3⟩ := axisGap_attained r.left r.right cx hx
    obtain ⟨b1, b2, b3⟩ := axisGap_attained r.top r.bottom cy hy
    refine ⟨_, _, a1, a2, b1, b2, ?_⟩
    unfold distSq
    rw [a3, b3]
  · unfold distSq
    have nx := axisGap_nonneg r.left r.right cx
    have ny := axisGap_nonneg r.top r.bottom cy
    constructor
    · intro h
      have hx0 : axisGap r.left r.right cx = 0 := by nlinarith [sq_nonneg (axisGap r.left r.right cx), sq_nonneg (axisGap r.top r.bottom cy)]
      have hy0 : axisGap r.top r.bottom cy = 0 := by nlinarith [sq_nonneg (axisGap r.left r.right cx), sq_nonneg (axisGap r.top r.bottom cy)]
      have := (axisGap_eq_zero_iff _ _ _).mp hx0
      have := (axisGap_eq_zero_iff _ _ _).mp hy0
      tauto
    · rintro ⟨h1, h2, h3, h4⟩
      rw [(axisGap_eq_zero_iff _ _ _).mpr ⟨h1, h2⟩, (axisGap_eq_zero_iff _ _ _).mpr ⟨h3, h4⟩]
      norm_num

/-- Instance of C8: the zero-area rectangle at (10, 20) and the point (13, 24). -/
theorem distSq_is_rect_distance_witness :
    (∀ px py : ℝ, (((⟨10, 20, 10, 20⟩ : Rect).left : ℚ) : ℝ) ≤ px →
      px ≤ (((⟨10, 20, 10, 20⟩ : Rect).right : ℚ) : ℝ) →
      (((⟨10, 20, 10, 20⟩ : Rect).top : ℚ) : ℝ) ≤ py →
      py ≤ (((⟨10, 20, 10, 20⟩ : Rect).bottom : ℚ) : ℝ) →
      ((distSq ⟨10, 20, 10, 20⟩ 13 24 : ℚ) : ℝ) ≤
        (px - ((13 : ℚ) : ℝ)) ^ 2 + (py - ((24 : ℚ) : ℝ)) ^ 2) ∧
    (∃ px py : ℚ, (⟨10, 20, 10, 20⟩ : Rect).left ≤ px ∧
      px ≤ (⟨10, 20, 10, 20⟩ : Rect).right ∧ (⟨10, 20, 10, 20⟩ : Rect).top ≤ py ∧
      py ≤ (⟨10, 20, 10, 20⟩ : Rect).bottom ∧
      (px - 13) ^ 2 + (py - 24) ^ 2 = distSq ⟨10, 20, 10, 20⟩ 13 24) ∧
    (distSq ⟨10, 20, 10, 20⟩ 13 24 = 0 ↔
      ((⟨10, 20, 10, 20⟩ : Rect).left ≤ 13 ∧ 13 ≤ (⟨10, 20, 10, 20⟩ : Rect).right ∧
        (⟨10, 20, 10, 20⟩ : Rect).top ≤ 24 ∧ 24 ≤ (⟨10, 20, 10, 20⟩ : Rect).bottom)) :=
  distSq_is_rect_distance ⟨10, 20, 10, 20⟩ 13 24 (le_refl _) (le_refl _)

/-- Comparing distances is comparing their squares. -/
theorem hypot_lt_iff (r r2 : Rect) (cx cy : ℚ) :
    (Real.sqrt ((distSq r cx cy : ℚ) : ℝ) < Real.sqrt ((distSq r2 cx cy : ℚ) : ℝ) ↔
      distSq r cx cy < distSq r2 cx cy) ∧
    (Real.sqrt ((distSq r cx cy : ℚ) : ℝ) < 60 ↔ distSq r cx cy < snapRadiusSq) := by
  have h0 : (0 : ℝ) ≤ ((distSq r cx cy : ℚ) : ℝ) := by exact_mod_cast distSq_nonneg r cx cy
  constructor
  · rw [Real.sqrt_lt_sqrt_iff h0]
    exact_mod_cast Iff.rfl
  · rw [Real.sqrt_lt' (by norm_num : (0 : ℝ) < 60)]
    unfold snapRadiusSq
    constructor
    · intro h
      have : ((distSq r cx cy : ℚ) : ℝ) < ((3600 : ℚ) : ℝ) := by push_cast; linarith
      exact_mod_cast this
    · intro h
      have : ((distSq r cx cy : ℚ) : ℝ) < ((3600 : ℚ) : ℝ) := by exact_mod_cast h
      push_cast at this
      linarith

/-! ## C9: a failing dispatch does not reach the engine -/

/-- The state after a call of `handleDwell` does not depend on the host. -/
theorem handleDwell_state_host {α : Type} [DecidableEq α] (host host2 : Host α) (k : Timing)
    (s : DwellState α) (el : Option α) (c1 c2 : ℚ) :
    (handleDwell host2 k s el c1 c2).state = (handleDwell host k s el c1 c2).state := by
  cases el with
  | none => rfl
  | some e =>
    simp only [handleDwell, activateClick_thrown]
    split_ifs <;> rfl

/-- C9: for every host (the dispatch on the target throws or not, the audio set-up
throws or not) `activateClick` returns without throwing and dispatches exactly one click, on
its target; `handleDwell` does not throw and leaves the same state as with a host whose
dispatch succeeds; and a call of `handleDwell` either dispatches no click, or dispatches
exactly one, then clears the ring as its last action and leaves both timers cleared. -/
theorem dispatch_failure_contained {α : Type} [DecidableEq α] (host : Host α) (k : Timing)
    (s : DwellState α) (e : α) (c1 c2 : ℚ) :
    (activateClick host (some e)).thrown = false ∧
    clicks (activateClick host (some e)).events = [e] ∧
    (handleDwell host k s (some e) c1 c2).thrown = false ∧
    (handleDwell host k s (some e) c1 c2).state =
      (handleDwell ⟨fun _ => false, host.audioThrows⟩ k s (some e) c1 c2).state ∧
    (clicks (handleDwell host k s (some e) c1 c2).events = [] ∨
      (clicks (handleDwell host k s (some e) c1 c2).events = [e] ∧
        (handleDwell host k s (some e) c1 c2).events.getLast? = some Ev.clearRing ∧
        (handleDwell host k s (some e) c1 c2).state = ⟨none, none, some e⟩)) := by
  refine ⟨activateClick_thrown host (some e), clicks_activateClick host e,
    handleDwell_thrown host k s (some e) c1 c2, handleDwell_state_host _ host k s (some e) c1 c2,
    ?_⟩
  have key : ∀ tm ds,
      clicks (handleDwell host k ⟨tm, ds, some e⟩ (some e) c1 c2).events = [] ∨
      (clicks (handleDwell host k ⟨tm, ds, some e⟩ (some e) c1 c2).events = [e] ∧
        (handleDwell host k ⟨tm, ds, some e⟩ (some e) c1 c2).events.getLast? =
          some Ev.clearRing ∧
        (handleDwell host k ⟨tm, ds, some e⟩ (some e) c1 c2).state = ⟨none, none, some e⟩) := by
    intro tm ds
    rcases handleDwell_cases host k tm ds e c1 c2 with h1 | ⟨_, h1⟩ | ⟨_, p, _, h1⟩ | ⟨_, h1⟩
    · left; rw [h1]; rfl
    · left; rw [h1]; rfl
    · left; rw [h1]; rfl
    · right
      rw [h1]
      refine ⟨clicks_fireEvents host e, ?_, rfl⟩
      show ((Ev.drawRing 1 :: (activateClick host (some e)).events) ++ [Ev.clearRing]).getLast?
        = some Ev.clearRing
      exact List.getLast?_concat _
  by_cases hcur : s.currentTarget = some e
  · obtain ⟨tm, ds, cur⟩ := s
    simp only at hcur
    subst hcur
    exact key tm ds
  · rw [handleDwell_change_eq host k s e c1 c2 hcur]
    exact key _ _

/-- With a host whose dispatch throws, the frame that completes a dwell still draws
progress 1, attempts the dispatch once, logs the failure, clears the ring and the timers. -/
theorem throwing_dispatch_still_resets :
    (handleDwell throwingHost defaultTiming ⟨some 400, some 300, some 7⟩ (some 7)
      1200 1200) =
      ⟨⟨none, none, some 7⟩,
       [Ev.drawRing 1, Ev.dispatchClick 7, Ev.warnDispatch 7, Ev.clearRing], false⟩ := by
  rw [handleDwell_fire throwingHost defaultTiming 400 300 7 1200 1200 (by norm_num)
        (by norm_num) (by norm_num) (by norm_num [defaultTiming])]
  rfl

/-! ## C10: rate limiting of gaze samples -/

theorem gazeListener_emits_iff (st : TrackerState) (smp : Sample) :
    (gazeListener st smp).2.isSome = true ↔
      smp.data.isSome = true ∧ emitInterval ≤ smp.now - st.lastEmit := by
  unfold gazeListener
  cases hd : smp.data with
  | none => simp
  | some d =>
    by_cases h : smp.now - st.lastEmit < emitInterval
    · simp [h]
    · simp [h, not_lt.mp h]

theorem gazeListener_dropped (st : TrackerState) (smp : Sample)
    (h : (gazeListener st smp).2 = none) : (gazeListener st smp).1 = st := by
  revert h
  unfold gazeListener
  cases hd : smp.data with
  | none => simp
  | some d =>
    by_cases h : smp.now - st.lastEmit < emitInterval
    · simp [h]
    · simp [h]

theorem remapToViewport_lastEmit (st : TrackerState) (view : Viewport) (data : GazeData) :
    (remapToViewport st view data).1.lastEmit = st.lastEmit := by
  unfold remapToViewport
  cases h1 : st.previewRect with
  | none =>
    cases h2 : view.preview <;> simp [h2]
  | some pr => simp [h1]

theorem gazeListener_accepted (st : TrackerState) (smp : Sample) (u : GazeUpdate)
    (h : (gazeListener st smp).2 = some u) : (gazeListener st smp).1.lastEmit = smp.now := by
  revert h
  unfold gazeListener
  cases hd : smp.data with
  | none => simp
  | some d =>
    by_cases h : smp.now - st.lastEmit < emitInterval
    · simp [h]
    · simp [h, remapToViewport_lastEmit]

theorem runListener_cons (st : TrackerState) (smp : Sample) (rest : List Sample) :
    runListener st (smp :: rest) =
      ((runListener (gazeListener st smp).1 rest).1,
       (gazeListener st smp).2 :: (runListener (gazeListener st smp).1 rest).2) := rfl

theorem runListener_append (pre : List Sample) :
    ∀ (st : TrackerState) (rest : List Sample),
      runListener st (pre ++ rest) =
        ((runListener (runListener st pre).1 rest).1,
         (runListener st pre).2 ++ (runListener (runListener st pre).1 rest).2) := by
  induction pre with
  | nil => intro st rest; rfl
  | cons smp pre ih =>
    intro st rest
    rw [List.cons_append, runListener_cons, ih, runListener_cons]
    rfl

theorem runListener_length (samples : List Sample) :
    ∀ st : TrackerState, (runListener st samples).2.length = samples.length := by
  induction samples with
  | nil => intro st; rfl
  | cons smp rest ih => intro st; simp [runListener_cons, ih]

/-- Accepted samples are spaced by at least `emitInterval`, and `lastEmit` is the clock
reading of the last accepted sample. -/
theorem runListener_spacing (samples : List Sample) :
    ∀ st : TrackerState,
      List.Chain (fun a b => a + emitInterval ≤ b) st.lastEmit
        (acceptedTimes samples (runListener st samples).2) ∧
      (runListener st samples).1.lastEmit =
        ((acceptedTimes samples (runListener st samples).2).getLast?).getD st.lastEmit := by
  induction samples with
  | nil => intro st; exact ⟨List.Chain.nil, rfl⟩
  | cons smp rest ih =>
    intro st
    rw [runListener_cons]
    cases hout : (gazeListener st smp).2 with
    | none =>
      have hst := gazeListener_dropped st smp hout
      simp only [acceptedTimes]
      rw [hst]
      exact ih st
    | some u =>
      have hacc := gazeListener_accepted st smp u hout
      have hiff := (gazeListener_emits_iff st smp).mp (by rw [hout]; rfl)
      simp only [acceptedTimes]
      obtain ⟨ih1, ih2⟩ := ih (gazeListener st smp).1
      rw [hacc] at ih1 ih2
      refine ⟨List.Chain.cons (by linarith [hiff.2]) ih1, ?_⟩
      rw [ih2]
      cases hl : acceptedTimes rest (runListener (gazeListener st smp).1 rest).2 with
      | nil => simp
      | cons a l =>
        simp [List.getLast?_cons_cons, List.getLast?_eq_getLast _ (List.cons_ne_nil a l)]

/-- C10: in every sequence of samples, the listener dispatches a `gazeUpdate` for a sample
exactly when the sample carries data and at least `1000 / 30` ms have elapsed since the
last accepted sample (since the initial `lastEmit` when none was accepted yet); a sample
for which nothing is dispatched leaves the whole listener state, `lastEmit` included,
unchanged; and the clock readings of consecutive accepted samples are at least
`1000 / 30` ms apart. -/
theorem gaze_rate_limit (st : TrackerState) (pre : List Sample) (smp : Sample)
    (post : List Sample) :
    (((runListener st (pre ++ smp :: post)).2.getD pre.length none).isSome = true ↔
      smp.data.isSome = true ∧ emitInterval ≤ smp.now - lastAccepted st pre) ∧
    ((gazeListener st smp).2.isSome = true ∨ (gazeListener st smp).1 = st) ∧
    List.Chain (fun a b => a + emitInterval ≤ b) st.lastEmit
      (acceptedTimes (pre ++ smp :: post) (runListener st (pre ++ smp :: post)).2) := by
  refine ⟨?_, ?_, (runListener_spacing _ st).1⟩
  · rw [runListener_append, runListener_cons]
    have hlen := runListener_length pre st
    have hget : ((runListener st pre).2 ++ (gazeListener (runListener st pre).1 smp).2 ::
        (runListener (gazeListener (runListener st pre).1 smp).1 post).2).getD pre.length none
        = (gazeListener (runListener st pre).1 smp).2 := by
      rw [← hlen, List.getD_append_right _ _ _ _ (le_refl _)]
      simp
    simp only [hget]
    rw [gazeListener_emits_iff, (runListener_spacing pre st).2]
    rfl
  · cases h : (gazeListener st smp).2 with
    | none => right; exact gazeListener_dropped st smp h
    | some u => left; rfl

/-! ## C11: the timing constants are captured when the cursor starts -/

/-- A session produces the frames of `runTicks` with the constants held by its engine. -/
theorem runSession_eq_runTicks {α : Type} [DecidableEq α] (host : Host α)
    (events : List (SessionEvent α)) :
    ∀ s : Session α,
      (runSession host s events).2 =
        (runTicks host s.engine.timing s.engine.dwell (framesOf events)).2 ∧
      (runSession host s events).1.engine.timing = s.engine.timing := by
  induction events with
  | nil => intro s; exact ⟨rfl, rfl⟩
  | cons ev rest ih =>
    intro s
    cases ev with
    | frame el now =>
      simp only [runSession, framesOf, handleDwell_thrown, runTicks_cons]
      have h := ih { s with engine := { s.engine with
        dwell := (handleDwell host s.engine.timing s.engine.dwell el now now).state } }
      exact ⟨by simp [h.1], h.2⟩
    | sliderInput v =>
      simp only [runSession, framesOf]
      exact ih _
    | assign cfg =>
      simp only [runSession, framesOf]
      exact ih _

/-- C11 (amended): the constants `dwellTime` and `onsetDelay` are computed once, when
`initCursor` starts, from the configuration of that moment. Whatever is assigned to
`window.EyeNavConfig` afterwards, by the sliders of the settings menu or otherwise, the
frames behave as a run of `handleDwell` with the constants captured at the start, and the
engine still holds those constants at the end. -/
theorem config_captured_at_init {α : Type} [DecidableEq α] (host : Host α)
    (cfg : Option EyeNavConfig) (events : List (SessionEvent α)) :
    (runSession host (initCursor cfg) events).2 =
      (runTicks host (initTiming cfg) ⟨none, none, none⟩ (framesOf events)).2 ∧
    (runSession host (initCursor cfg) events).1.engine.timing = initTiming cfg := by
  have h := runSession_eq_runTicks host events (initCursor cfg)
  exact ⟨h.1, h.2⟩

/-- C11 (as stated) fails: the engine starts with `dwellTime = 800`, the dwell slider is
then set to 300, and a candidate is resolved on frames at 0, 400 and 800 ms. With the new
value the frame at 800 ms would complete the dwell (second statement); the engine draws
progress `(800 - 400) / 800` and dispatches no click (first statement). -/
theorem slider_update_ignored :
    (runSession quietHost (initCursor (some ⟨some 800, some 300⟩))
      [SessionEvent.sliderInput 300, SessionEvent.frame (some 7) 0,
       SessionEvent.frame (some 7) 400, SessionEvent.frame (some 7) 800]).2 =
      [[], [Ev.drawRing 0], [Ev.drawRing (1 / 2)]] ∧
    (runTicks quietHost (initTiming (sliderInput (some ⟨some 800, some 300⟩) 300))
      ⟨none, none, none⟩ (gazeAt 7 [0, 400, 800])).2 =
      [[], [Ev.drawRing 0], fireEvents quietHost 7] := by
  have ht : initTiming (some ⟨some 800, some 300⟩) = ⟨800, 300⟩ := by
    simp [initTiming, orDefault]
  have ht2 : initTiming (sliderInput (some ⟨some 800, some 300⟩) 300) = ⟨300, 300⟩ := by
    simp [initTiming, orDefault, sliderInput]
  constructor
  · rw [(runSession_eq_runTicks quietHost _ _).1]
    simp only [framesOf, initCursor, ht]
    rw [runTicks_cons, handleDwell_acquire quietHost ⟨800, 300⟩ _ 7 0 (by simp) (by norm_num)]
    simp only []
    rw [runTicks_cons, handleDwell_start quietHost ⟨800, 300⟩ _ 7 400 400 (by norm_num)
      (by norm_num)]
    simp only []
    rw [runTicks_cons, handleDwell_progress quietHost ⟨800, 300⟩ 400 _ 7 800 800
      (by norm_num) (by norm_num) (by norm_num) (by norm_num)]
    simp only [runTicks]
    norm_num
  · rw [ht2]
    have h := runTicks_cycle quietHost ⟨300, 300⟩ ⟨none, none, none⟩ 7 0 400 800 [] [] []
      (by simp) (by norm_num) (le_refl 0) (by simp) (by norm_num) (by simp) (by norm_num)
      (by norm_num)
    simp only [List.nil_append, List.map_nil] at h
    rw [h]

/-! ## C12: the emitted point and the viewport -/

/-- Clamping a finite value to `[0, W]` gives a value in `[0, W]`. -/
theorem clamp_fin_within (v W : ℚ) (hW : 0 ≤ W) :
    JsNum.within 0 W (JsNum.min (JsNum.max (JsNum.fin v) (JsNum.fin 0)) (JsNum.fin W)) = true := by
  simp only [JsNum.max, JsNum.min, JsNum.within, JsNum.le, Bool.and_eq_true, decide_eq_true_eq]
  exact ⟨le_min (le_max_right _ _) hW, min_le_right _ _⟩

/-- With a preview rectangle of non-zero width and height, or none, a finite sample is
mapped to finite coordinates. -/
theorem remapToViewport_fin (st : TrackerState) (view : Viewport) (a b : ℚ)
    (hpr : ∀ pr, (remapToViewport st view ⟨JsNum.fin a, JsNum.fin b⟩).1.previewRect = some pr →
      pr.w ≠ 0 ∧ pr.h ≠ 0) :
    ∃ vx vy : ℚ, (remapToViewport st view ⟨JsNum.fin a, JsNum.fin b⟩).2 =
      (JsNum.fin vx, JsNum.fin vy) := by
  revert hpr
  unfold remapToViewport
  generalize (if st.previewRect.isNone = true then
    ({ st with previewRect := view.preview } : TrackerState) else st) = st1
  simp only []
  cases h : st1.previewRect with
  | none => intro _; exact ⟨a, b, rfl⟩
  | some pr =>
    simp only []
    intro hpr
    obtain ⟨hw, hh⟩ := hpr pr h
    by_cases hn : (JsNum.le (JsNum.fin a) (JsNum.fin 1) &&
        JsNum.le (JsNum.fin b) (JsNum.fin 1)) = true
    · rw [if_pos hn, if_pos hn]
      simp only [JsNum.mul, JsNum.div, hw, hh, ne_eq, not_false_eq_true, if_true]
      exact ⟨_, _, rfl⟩
    · rw [if_neg hn, if_neg hn]
      simp only [JsNum.mul, JsNum.div, hw, hh, ne_eq, not_false_eq_true, if_true]
      exact ⟨_, _, rfl⟩

/-- The emitted point lies in the viewport when the sample is finite and the preview
rectangle in effect has non-zero width and height or is absent. -/
theorem gazeListener_within (st : TrackerState) (smp : Sample) (a b : ℚ) (u : GazeUpdate)
    (hdata : smp.data = some ⟨JsNum.fin a, JsNum.fin b⟩)
    (hout : (gazeListener st smp).2 = some u)
    (hW : 0 ≤ smp.view.innerWidth) (hH : 0 ≤ smp.view.innerHeight)
    (hpr : ∀ pr, (gazeListener st smp).1.previewRect = some pr → pr.w ≠ 0 ∧ pr.h ≠ 0) :
    JsNum.within 0 smp.view.innerWidth u.x = true ∧
      JsNum.within 0 smp.view.innerHeight u.y = true := by
  revert hout hpr
  unfold gazeListener
  rw [hdata]
  by_cases hlim : smp.now - st.lastEmit < emitInterval
  · simp [hlim]
  · simp only [hlim, if_false]
    intro hout hpr
    obtain ⟨vx, vy, hv⟩ := remapToViewport_fin { st with lastEmit := smp.now } smp.view a b hpr
    simp only [hv, Option.some.injEq] at hout
    rw [← hout]
    exact ⟨clamp_fin_within vx _ hW, clamp_fin_within vy _ hH⟩

/-- C12 (defect in the code): the listener accepts a sample with normalized coordinates
(0.5, 0.5) while the preview element has zero width and height; `remapToViewport` divides
zero by zero and the clamp lets `NaN` through, so the dispatched `gazeUpdate` carries
`x = NaN`, `y = NaN`, which are not within `[0, innerWidth]` and `[0, innerHeight]`. -/
theorem nan_escapes_clamp :
    (gazeListener initialTracker centreSample).2 = some ⟨JsNum.nan, JsNum.nan, 0⟩ ∧
    JsNum.within 0 1000 JsNum.nan = false ∧ JsNum.within 0 800 JsNum.nan = false := by
  refine ⟨?_, rfl, rfl⟩
  norm_num [gazeListener, remapToViewport, initialTracker, centreSample, hiddenPreview,
    emitInterval, JsNum.le, JsNum.mul, JsNum.div, JsNum.max, JsNum.min]

/-! ## C13: no premature click -/

theorem abs_rne_sub_le (y : ℚ) : |(rne y : ℚ) - y| ≤ 1 / 2 := by
  have h0 := Int.fract_nonneg y
  have h1 := Int.fract_lt_one y
  have hy : y = ⌊y⌋ + Int.fract y := (Int.floor_add_fract y).symm
  unfold rne
  rw [abs_le]
  split_ifs with a b c
  · constructor <;> linarith
  · push_cast
    constructor <;> linarith
  · have : Int.fract y = 1 / 2 := le_antisymm (not_lt.mp b) (not_lt.mp a)
    constructor <;> linarith
  · have : Int.fract y = 1 / 2 := le_antisymm (not_lt.mp b) (not_lt.mp a)
    push_cast
    constructor <;> linarith

/-- Rounding a non-negative number to a double increases it by at most one part in
`2 ^ 53`. -/
theorem fl64_le_mul {x : ℚ} (hx : 0 ≤ x) : fl64 x ≤ x * (1 + 1 / 2 ^ 53) := by
  rcases lt_or_eq_of_le hx with hpos | hzero
  · have hu := ulp64_pos x
    have hlo : (2 : ℚ) ^ Int.log 2 |x| ≤ x := by
      rw [abs_of_pos hpos]
      exact_mod_cast Int.zpow_log_le_self (b := 2) (r := x) (by norm_num) hpos
    have e1 : (2 : ℚ) ^ Int.log 2 |x| = (2 ^ 52 : ℚ) * ulp64 x := by
      unfold ulp64
      rw [zpow_sub₀ (by norm_num)]
      field_simp
      ring
    have hr := (abs_le.mp (abs_rne_sub_le (x / ulp64 x))).2
    have hxu : x / ulp64 x * ulp64 x = x := div_mul_cancel₀ x (ne_of_gt hu)
    have h1 : fl64 x ≤ x + ulp64 x / 2 := by
      unfold fl64
      have : (rne (x / ulp64 x) : ℚ) ≤ x / ulp64 x + 1 / 2 := by linarith
      calc (rne (x / ulp64 x) : ℚ) * ulp64 x
          ≤ (x / ulp64 x + 1 / 2) * ulp64 x := mul_le_mul_of_nonneg_right this hu.le
        _ = x + ulp64 x / 2 := by rw [add_mul, hxu]; ring
    have h2 : ulp64 x / 2 ≤ x * (1 / 2 ^ 53) := by
      have : (2 ^ 52 : ℚ) * ulp64 x ≤ x := by rw [← e1]; exact hlo
      have h53 : (2 : ℚ) ^ 53 = 2 * 2 ^ 52 := by norm_num
      rw [h53]
      have hp : (0 : ℚ) < 2 ^ 52 := by positivity
      field_simp
      rw [div_le_div_iff₀ (by positivity) (by positivity)]
      nlinarith
    linarith
  · rw [← hzero, fl64_zero]
    norm_num

/-- A computed progress of at least 1 means that close to `dwellTime` has really elapsed:
at least `dwellTime * (1 - 2 ^ -52)`. -/
theorem elapsed_of_progress64 (k : Timing) (hdw : 0 < k.dwellTime) (td t : ℚ)
    (h : 1 ≤ fl64 (fl64 (t - td) / k.dwellTime)) :
    td < t ∧ k.dwellTime * (1 - 1 / 2 ^ 52) ≤ t - td := by
  have hlt : td < t := by
    by_contra hcon
    have := progress64_nonpos k hdw td t (not_lt.mp hcon)
    linarith
  refine ⟨hlt, ?_⟩
  have hΔ : 0 ≤ t - td := by linarith
  have h1 := fl64_le_mul hΔ
  have hd0 : 0 ≤ fl64 (t - td) := fl64_nonneg hΔ
  have hq0 : 0 ≤ fl64 (t - td) / k.dwellTime := div_nonneg hd0 hdw.le
  have h2 := fl64_le_mul hq0
  have h3 : 1 ≤ fl64 (t - td) / k.dwellTime * (1 + 1 / 2 ^ 53) := le_trans h h2
  have h4 : k.dwellTime ≤ fl64 (t - td) * (1 + 1 / 2 ^ 53) := by
    have := mul_le_mul_of_nonneg_right h3 hdw.le
    rw [one_mul] at this
    calc k.dwellTime ≤ fl64 (t - td) / k.dwellTime * (1 + 1 / 2 ^ 53) * k.dwellTime := this
      _ = fl64 (t - td) * (1 + 1 / 2 ^ 53) := by
          have hne : k.dwellTime ≠ 0 := ne_of_gt hdw
          field_simp
          ring
  have h5 : k.dwellTime ≤ (t - td) * (1 + 1 / 2 ^ 53) * (1 + 1 / 2 ^ 53) :=
    le_trans h4 (mul_le_mul_of_nonneg_right h1 (by norm_num))
  have hc : (1 + 1 / 2 ^ 53 : ℚ) * (1 + 1 / 2 ^ 53) * (1 - 1 / 2 ^ 52) ≤ 1 := by norm_num
  have h6 : k.dwellTime * (1 - 1 / 2 ^ 52) ≤
      (t - td) * (1 + 1 / 2 ^ 53) * (1 + 1 / 2 ^ 53) * (1 - 1 / 2 ^ 52) :=
    mul_le_mul_of_nonneg_right h5 (by norm_num)
  have h7 : (t - td) * (1 + 1 / 2 ^ 53) * (1 + 1 / 2 ^ 53) * (1 - 1 / 2 ^ 52) ≤ t - td := by
    have := mul_le_mul_of_nonneg_left hc hΔ
    rw [mul_one] at this
    calc (t - td) * (1 + 1 / 2 ^ 53) * (1 + 1 / 2 ^ 53) * (1 - 1 / 2 ^ 52)
        = (t - td) * ((1 + 1 / 2 ^ 53) * (1 + 1 / 2 ^ 53) * (1 - 1 / 2 ^ 52)) := by ring
      _ ≤ t - td := this
  linarith

/-- A double that lies strictly above the rounded deadline lies strictly above the exact
one. -/
theorem lt_of_fl64_lt (x td : ℚ) (htd : fl64 td = td) (h : fl64 x < td) : x < td := by
  by_contra hcon
  have := fl64_mono (not_lt.mp hcon)
  rw [htd] at this
  linarith

theorem runTicks64_append {α : Type} [DecidableEq α] (host : Host α) (k : Timing)
    (pre : List (Option α × ℚ)) :
    ∀ (s : DwellState α) (rest : List (Option α × ℚ)),
      F64.runTicks host k s (pre ++ rest) =
        ((F64.runTicks host k (F64.runTicks host k s pre).1 rest).1,
         (F64.runTicks host k s pre).2 ++
           (F64.runTicks host k (F64.runTicks host k s pre).1 rest).2) := by
  induction pre with
  | nil => intro s rest; simp [F64.runTicks]
  | cons tk pre ih =>
    intro s rest
    obtain ⟨el, t⟩ := tk
    rw [List.cons_append, runTicks64_cons, ih, runTicks64_cons]
    rfl

theorem runTicks64_length {α : Type} [DecidableEq α] (host : Host α) (k : Timing)
    (ticks : List (Option α × ℚ)) :
    ∀ s : DwellState α, (F64.runTicks host k s ticks).2.length = ticks.length := by
  induction ticks with
  | nil => intro s; simp [F64.runTicks]
  | cons tk ticks ih =>
    intro s
    obtain ⟨el, t⟩ := tk
    simp [runTicks64_cons, ih]

/-- The outcomes of a call on the current target in double arithmetic, with the clock
conditions of each. -/
theorem handleDwell64_cases {α : Type} [DecidableEq α] (host : Host α) (k : Timing)
    (tm ds : Option ℚ) (e : α) (c t : ℚ) :
    F64.handleDwell host k ⟨tm, ds, some e⟩ (some e) c t = ⟨⟨tm, ds, some e⟩, [], false⟩ ∨
    (numVal ds < t ∧
      F64.handleDwell host k ⟨tm, ds, some e⟩ (some e) c t =
        ⟨⟨some t, ds, some e⟩, [Ev.drawRing 0], false⟩) ∨
    (∃ p : ℚ, F64.handleDwell host k ⟨tm, ds, some e⟩ (some e) c t =
        ⟨⟨tm, ds, some e⟩, [Ev.drawRing p], false⟩) ∨
    (truthy tm = true ∧ 1 ≤ fl64 (fl64 (t - numVal tm) / k.dwellTime) ∧
      F64.handleDwell host k ⟨tm, ds, some e⟩ (some e) c t =
        ⟨⟨none, none, some e⟩, fireEvents host e, false⟩) := by
  by_cases hgate : truthy ds = true ∧ numVal ds < t
  · obtain ⟨hg1, hg2⟩ := hgate
    have hnum : ∀ q : ℚ, numVal (some q) = q := fun _ => rfl
    cases htm : truthy tm with
    | false =>
      right; left
      refine ⟨hg2, ?_⟩
      simp [F64.handleDwell, hg1, hg2, htm, hnum, fl64_zero]
    | true =>
      right; right
      by_cases hp : 1 ≤ fl64 (fl64 (t - numVal tm) / k.dwellTime)
      · right
        refine ⟨rfl, hp, ?_⟩
        have hmin : min (fl64 (fl64 (t - numVal tm) / k.dwellTime)) 1 = 1 := min_eq_right hp
        simp [F64.handleDwell, hg1, hg2, htm, hmin, activateClick_thrown, cancelDwell,
          fireEvents]
      · left
        refine ⟨fl64 (fl64 (t - numVal tm) / k.dwellTime), ?_⟩
        have hmin : min (fl64 (fl64 (t - numVal tm) / k.dwellTime)) 1 =
            fl64 (fl64 (t - numVal tm) / k.dwellTime) := min_eq_left (not_le.mp hp).le
        simp [F64.handleDwell, hg1, hg2, htm, hmin, hp]
  · left
    simp [F64.handleDwell, hgate]

/-- One more frame keeps the invariant, and a click on that frame comes from a countdown
that started strictly after the computed deadline and whose computed progress reached 1. -/
theorem armed64_step {α : Type} [DecidableEq α] (host : Host α) (k : Timing)
    (pre : List (Option α × ℚ)) (el : Option α) (t : ℚ)
    (hinv : F64.Armed host k pre (F64.runTicks host k ⟨none, none, none⟩ pre).1) :
    F64.Armed host k (pre ++ [(el, t)])
      (F64.runTicks host k ⟨none, none, none⟩ (pre ++ [(el, t)])).1 ∧
    ∀ x ∈ clicks
        (F64.handleDwell host k (F64.runTicks host k ⟨none, none, none⟩ pre).1 el t t).events,
      el = some x ∧
      ∃ (pre1 : List (Option α × ℚ)) (tacq : ℚ) (mid : List ℚ) (td : ℚ),
        pre = pre1 ++ (some x, tacq) :: gazeAt x mid ∧
        (F64.runTicks host k ⟨none, none, none⟩ pre1).1.currentTarget ≠ some x ∧
        td ∈ tacq :: mid ∧ fl64 (tacq + k.onsetDelay) < td ∧
        1 ≤ fl64 (fl64 (t - td) / k.dwellTime) := by
  have hrun : (F64.runTicks host k ⟨none, none, none⟩ (pre ++ [(el, t)])).1 =
      (F64.handleDwell host k (F64.runTicks host k ⟨none, none, none⟩ pre).1 el t t).state := by
    rw [runTicks64_append, runTicks64_cons]
    rfl
  rw [hrun]
  generalize hs : (F64.runTicks host k ⟨none, none, none⟩ pre).1 = s at hinv ⊢
  have hnoclick : ∀ p : ℚ, ∀ x ∈ clicks [(Ev.drawRing p : Ev α)], False := by
    intro p x hx
    simp [clicks] at hx
  cases el with
  | none =>
    rw [handleDwell64_none]
    exact ⟨Or.inl ⟨rfl, rfl⟩, by intro x hx; simp [clicks] at hx⟩
  | some e =>
    have key : ∀ (tm ds : Option ℚ) (pre1 : List (Option α × ℚ)) (tacq : ℚ) (mid : List ℚ),
        pre ++ [(some e, t)] = pre1 ++ (some e, tacq) :: gazeAt e mid →
        t ∈ tacq :: mid →
        (F64.runTicks host k ⟨none, none, none⟩ pre1).1.currentTarget ≠ some e →
        ds = some (fl64 (tacq + k.onsetDelay)) →
        (∀ td, tm = some td → td ∈ tacq :: mid ∧ fl64 (tacq + k.onsetDelay) < td) →
        (∀ td, tm = some td → ∃ mid0 : List ℚ,
          pre = pre1 ++ (some e, tacq) :: gazeAt e mid0 ∧ td ∈ tacq :: mid0) →
        F64.Armed host k (pre ++ [(some e, t)])
          (F64.handleDwell host k ⟨tm, ds, some e⟩ (some e) t t).state ∧
        ∀ x ∈ clicks (F64.handleDwell host k ⟨tm, ds, some e⟩ (some e) t t).events,
          some e = some x ∧
          ∃ (pre1 : List (Option α × ℚ)) (tacq : ℚ) (mid : List ℚ) (td : ℚ),
            pre = pre1 ++ (some x, tacq) :: gazeAt x mid ∧
            (F64.runTicks host k ⟨none, none, none⟩ pre1).1.currentTarget ≠ some x ∧
            td ∈ tacq :: mid ∧ fl64 (tacq + k.onsetDelay) < td ∧
            1 ≤ fl64 (fl64 (t - td) / k.dwellTime) := by
      intro tm ds pre1 tacq mid hpre htmem hne hds htm htm0
      rcases handleDwell64_cases host k tm ds e t t with h | ⟨hg, h⟩ | ⟨p, h⟩ | ⟨htr, hp, h⟩
      · rw [h]
        exact ⟨Or.inr ⟨e, pre1, tacq, mid, rfl, hpre, hne, hds, htm⟩,
          by intro x hx; simp [clicks] at hx⟩
      · rw [h]
        refine ⟨Or.inr ⟨e, pre1, tacq, mid, rfl, hpre, hne, hds, ?_⟩,
          fun x hx => (hnoclick 0 x hx).elim⟩
        intro td htd
        simp only [Option.some.injEq] at htd
        rw [hds] at hg
        rw [← htd]
        exact ⟨htmem, hg⟩
      · rw [h]
        exact ⟨Or.inr ⟨e, pre1, tacq, mid, rfl, hpre, hne, hds, htm⟩,
          fun x hx => (hnoclick p x hx).elim⟩
      · rw [h]
        refine ⟨Or.inl ⟨rfl, rfl⟩, ?_⟩
        intro x hx
        simp only [clicks_fireEvents, List.mem_singleton] at hx
        subst hx
        cases tm with
        | none => simp [truthy] at htr
        | some td =>
          obtain ⟨mid0, hpre0, hmem0⟩ := htm0 td rfl
          exact ⟨rfl, pre1, tacq, mid0, td, hpre0, hne, hmem0, (htm td rfl).2, hp⟩
    by_cases hcur : s.currentTarget = some e
    · obtain ⟨tm, ds, cur⟩ := s
      simp only at hcur
      subst hcur
      rcases hinv with ⟨h1, h2⟩ | ⟨e2, pre1, tacq, mid, he, hpre, hne, hds, htm⟩
      · simp only at h1 h2
        subst h1
        rw [handleDwell64_idle]
        exact ⟨Or.inl ⟨rfl, h2⟩, by intro x hx; simp [clicks] at hx⟩
      · simp only at he hds htm
        have he2 : e2 = e := (Option.some.inj he).symm
        subst he2
        have hpre2 : pre ++ [(some e2, t)] =
            pre1 ++ (some e2, tacq) :: gazeAt e2 (mid ++ [t]) := by
          rw [hpre, gazeAt_append]
          simp [gazeAt]
        refine key tm ds pre1 tacq (mid ++ [t]) hpre2 (by simp) hne hds ?_ ?_
        · intro td htd
          obtain ⟨hm, hlt⟩ := htm td htd
          refine ⟨?_, hlt⟩
          rcases List.mem_cons.mp hm with h | h
          · rw [h]; exact List.mem_cons_self _ _
          · exact List.mem_cons_of_mem _ (List.mem_append_left _ h)
        · intro td htd
          exact ⟨mid, hpre, (htm td htd).1⟩
    · rw [handleDwell64_change_eq host k s e t t hcur]
      refine key none _ pre t [] (by simp [gazeAt]) (by simp) ?_ rfl ?_ ?_
      · rw [hs]; exact hcur
      · intro td htd; simp at htd
      · intro td htd; simp at htd

/-- The invariant holds after every run of frames from the initial state. -/
theorem armed64_run {α : Type} [DecidableEq α] (host : Host α) (k : Timing)
    (pre : List (Option α × ℚ)) :
    F64.Armed host k pre (F64.runTicks host k ⟨none, none, none⟩ pre).1 := by
  induction pre using List.reverseRecOn with
  | nil => exact Or.inl ⟨rfl, rfl⟩
  | append_singleton pre tk ih =>
    obtain ⟨el, t⟩ := tk
    exact (armed64_step host k pre el t ih).1

/-- C13 (amended): in the code's double arithmetic, for every frame sequence from the
initial state and every positive `dwellTime`: a click on some frame `tf` is a click on the
element `x` resolved on that frame, `x` became the current target on an earlier frame at
`tacq` and was resolved on every frame in between, and the countdown started on one of
those frames at a time `td` strictly after the computed deadline
`fl64 (tacq + onsetDelay)`, with computed progress `fl64 (fl64 (tf - td) / dwellTime)` at
least 1. Of real time this gives `td < tf` and `dwellTime * (1 - 2 ^ -52) ≤ tf - td`, and,
when `td` is a double, `tacq + onsetDelay < td` and
`tacq + onsetDelay + dwellTime * (1 - 2 ^ -52) < tf`; it does not give
`tacq + onsetDelay + dwellTime < tf`. -/
theorem no_premature_click {α : Type} [DecidableEq α] (host : Host α) (k : Timing)
    (hdw : 0 < k.dwellTime)
    (pre : List (Option α × ℚ)) (el : Option α) (tf : ℚ) (x : α)
    (hx : x ∈ clicks
      (F64.handleDwell host k (F64.runTicks host k ⟨none, none, none⟩ pre).1 el tf tf).events) :
    el = some x ∧
    ∃ (pre1 : List (Option α × ℚ)) (tacq : ℚ) (mid : List ℚ) (td : ℚ),
      pre = pre1 ++ (some x, tacq) :: gazeAt x mid ∧
      (F64.runTicks host k ⟨none, none, none⟩ pre1).1.currentTarget ≠ some x ∧
      td ∈ tacq :: mid ∧ fl64 (tacq + k.onsetDelay) < td ∧
      1 ≤ fl64 (fl64 (tf - td) / k.dwellTime) ∧
      td < tf ∧ k.dwellTime * (1 - 1 / 2 ^ 52) ≤ tf - td ∧
      (fl64 td = td → tacq + k.onsetDelay < td ∧
        tacq + k.onsetDelay + k.dwellTime * (1 - 1 / 2 ^ 52) < tf) := by
  obtain ⟨hel, pre1, tacq, mid, td, hpre, hne, hmem, hgate, hp⟩ :=
    (armed64_step host k pre el tf (armed64_run host k pre)).2 x hx
  obtain ⟨hlt, hel2⟩ := elapsed_of_progress64 k hdw td tf hp
  refine ⟨hel, pre1, tacq, mid, td, hpre, hne, hmem, hgate, hp, hlt, hel2, fun htd => ?_⟩
  have hgate2 := lt_of_fl64_lt _ td htd hgate
  exact ⟨hgate2, by linarith⟩

/-- Instance of C13 (amended): frames at 0, 400 and 1200 ms on candidate `7` with
`onsetDelay = 300` and `dwellTime = 800`; the frame at 1200 ms clicks. -/
theorem no_premature_click_witness :
    (some 7 : Option ℕ) = some 7 ∧
    ∃ (pre1 : List (Option ℕ × ℚ)) (tacq : ℚ) (mid : List ℚ) (td : ℚ),
      [(some 7, 0), (some 7, 400)] = pre1 ++ (some 7, tacq) :: gazeAt 7 mid ∧
      (F64.runTicks quietHost defaultTiming ⟨none, none, none⟩ pre1).1.currentTarget ≠ some 7 ∧
      td ∈ tacq :: mid ∧ fl64 (tacq + defaultTiming.onsetDelay) < td ∧
      1 ≤ fl64 (fl64 (1200 - td) / defaultTiming.dwellTime) ∧
      td < 1200 ∧ defaultTiming.dwellTime * (1 - 1 / 2 ^ 52) ≤ 1200 - td ∧
      (fl64 td = td → tacq + defaultTiming.onsetDelay < td ∧
        tacq + defaultTiming.onsetDelay + defaultTiming.dwellTime * (1 - 1 / 2 ^ 52) < 1200) :=
  no_premature_click quietHost defaultTiming (by norm_num [defaultTiming])
    [(some 7, 0), (some 7, 400)] (some 7) 1200 7
    (by
      rw [runTicks64_cons, handleDwell64_acquire quietHost defaultTiming ⟨none, none, none⟩ 7 0
        (by simp) (by norm_num [defaultTiming]) fl64_zero]
      have h300 : fl64 (0 + defaultTiming.onsetDelay) = 300 := by
        norm_num [defaultTiming, fl64_300]
      rw [h300, runTicks64_cons,
        handleDwell64_start quietHost defaultTiming 300 7 400 400 (by norm_num) (by norm_num)]
      simp only [F64.runTicks]
      rw [handleDwell64_fire quietHost defaultTiming 400 300 7 1200 1200 (by norm_num)
        (by norm_num) (by norm_num) (by rw [progress64_at_800 400 1200 (by norm_num)])]
      simp [clicks_fireEvents])

theorem fl64_128_04 : fl64 128.04 = 4505007002254049 / 2 ^ 45 := by
  rw [fl64_eq 128.04 7 4505007002254049 (by norm_num) (by norm_num)
    (by rw [abs_lt]; constructor <;> norm_num)]
  norm_num

theorem fl64_428_04 : fl64 428.04 = 7530159314451825 / 2 ^ 44 := by
  rw [fl64_eq 428.04 8 7530159314451825 (by norm_num) (by norm_num)
    (by rw [abs_lt]; constructor <;> norm_num)]
  norm_num

theorem fl64_1228_04 : fl64 1228.04 = 5400977037496156 / 2 ^ 42 := by
  rw [fl64_eq 1228.04 10 5400977037496156 (by norm_num) (by norm_num)
    (by rw [abs_lt]; constructor <;> norm_num)]
  norm_num

/-- The three frame times are doubles, the onset deadline computed at the first is one unit
in the last place below the second, and the difference of the last two rounds up to 800. -/
theorem doubles_near_428_04 :
    fl64 (4505007002254049 / 2 ^ 45) = 4505007002254049 / 2 ^ 45 ∧
    fl64 (4505007002254049 / 2 ^ 45 + 300) = 7530159314451824 / 2 ^ 44 ∧
    fl64 (5400977037496156 / 2 ^ 42 - 7530159314451825 / 2 ^ 44) = 800 := by
  refine ⟨?_, ?_, ?_⟩
  · rw [fl64_eq (4505007002254049 / 2 ^ 45) 7 4505007002254049 (by norm_num) (by norm_num)
      (by norm_num)]
    norm_num
  · rw [fl64_tie (4505007002254049 / 2 ^ 45 + 300) 8 7530159314451824 (by norm_num)
      (by norm_num) (by norm_num)]
    norm_num
  · rw [fl64_tie (5400977037496156 / 2 ^ 42 - 7530159314451825 / 2 ^ 44) 9 7036874417766399
      (by norm_num) (by norm_num) (by norm_num)]
    norm_num

/-- C13 (as stated) fails in the code's arithmetic: with `onsetDelay = 300` and
`dwellTime = 800`, let the candidate `7` be resolved on frames at the doubles nearest to
128.04, 428.04 and 1228.04 ms.  The countdown starts on the second frame and the third
frame clicks, although its time is less than the acquisition time plus 1100 ms. -/
theorem click_before_exact_deadline :
    (F64.runTicks quietHost defaultTiming initialDwell
      (gazeAt 7 [fl64 128.04, fl64 428.04, fl64 1228.04])).2 =
      [[], [Ev.drawRing 0], fireEvents quietHost 7] ∧
    clicks (fireEvents quietHost 7) = [7] ∧
    fl64 1228.04 < fl64 128.04 + defaultTiming.onsetDelay + defaultTiming.dwellTime := by
  obtain ⟨h1, h2, h3⟩ := doubles_near_428_04
  rw [fl64_128_04, fl64_428_04, fl64_1228_04]
  refine ⟨?_, clicks_fireEvents quietHost 7, ?_⟩
  · simp only [gazeAt, List.map_cons, List.map_nil]
    rw [runTicks64_cons, handleDwell64_acquire quietHost defaultTiming initialDwell 7 _
      (by simp [initialDwell]) (by norm_num [defaultTiming]) h1]
    have hD : fl64 (4505007002254049 / 2 ^ 45 + defaultTiming.onsetDelay) =
        7530159314451824 / 2 ^ 44 := by
      simpa [defaultTiming] using h2
    rw [hD, runTicks64_cons,
      handleDwell64_start quietHost defaultTiming _ 7 _ _ (by norm_num) (by norm_num),
      runTicks64_cons,
      handleDwell64_fire quietHost defaultTiming _ _ 7 _ _ (by norm_num) (by norm_num)
        (by norm_num) (by rw [h3]; norm_num [defaultTiming, fl64_one])]
    simp [F64.runTicks]
  · norm_num [defaultTiming]

/-! ## C14: disconnecting the integration bridge -/

theorem mem_addEventListener {κ : Type} [DecidableEq κ] (doc : Document κ) (ty : EventType)
    (l : Listener κ) : (ty, l) ∈ (addEventListener doc ty l).listeners := by
  unfold addEventListener
  by_cases h : (ty, l) ∈ doc.listeners
  · simp [h]
  · simp [h]

theorem mem_addEventListener_of_mem {κ : Type} [DecidableEq κ] (doc : Document κ)
    (ty : EventType) (l : Listener κ) (p : EventType × Listener κ)
    (hp : p ∈ doc.listeners) : p ∈ (addEventListener doc ty l).listeners := by
  unfold addEventListener
  by_cases h : (ty, l) ∈ doc.listeners
  · simpa [h] using hp
  · simp [h, hp]

theorem mem_hook_of_mem {κ : Type} [DecidableEq κ] (doc : Document κ) (ty : EventType)
    (f : Option κ) (p : EventType × Listener κ) (hp : p ∈ doc.listeners) :
    p ∈ (hook doc ty f).listeners := by
  cases f with
  | none => exact hp
  | some f => exact mem_addEventListener_of_mem _ ty _ p hp

/-- Removing a caller's function leaves every arrow function registered. -/
theorem arrow_mem_removeEventListener {κ : Type} [DecidableEq κ] (doc : Document κ)
    (ty ty2 : EventType) (n : ℕ) (f : κ) (g : Option κ)
    (h : (ty, Listener.arrow n f) ∈ doc.listeners) :
    (ty, Listener.arrow n f) ∈
      (removeEventListener doc ty2 (g.map Listener.callback)).listeners := by
  cases g with
  | none => exact h
  | some g =>
    simp only [removeEventListener, Option.map_some', List.mem_filter]
    exact ⟨h, by simp⟩

theorem arrow_mem_disconnect {κ : Type} [DecidableEq κ] (cb : Callbacks κ) (doc : Document κ)
    (ty : EventType) (n : ℕ) (f : κ) (h : (ty, Listener.arrow n f) ∈ doc.listeners) :
    (ty, Listener.arrow n f) ∈ (disconnect cb doc).listeners := by
  unfold disconnect
  exact arrow_mem_removeEventListener _ _ _ _ _ _
    (arrow_mem_removeEventListener _ _ _ _ _ _
      (arrow_mem_removeEventListener _ _ _ _ _ _ h))

theorem mem_invoked {κ : Type} (doc : Document κ) (ty : EventType) (l : Listener κ)
    (h : (ty, l) ∈ doc.listeners) : l.target ∈ invoked doc ty := by
  unfold invoked
  rw [List.mem_filterMap]
  exact ⟨(ty, l), h, by simp⟩

/-- For every document and callback set, the callbacks that were hooked are still invoked
after `disconnect`. -/
theorem disconnect_keeps_arrows {κ : Type} [DecidableEq κ] (doc : Document κ)
    (cb : Callbacks κ) :
    (∀ f, cb.onGaze = some f →
      f ∈ invoked (disconnect cb (connectToEyeNav doc cb)) EventType.gazeUpdate) ∧
    (∀ f, cb.onBlink = some f →
      f ∈ invoked (disconnect cb (connectToEyeNav doc cb)) EventType.eyeblink) ∧
    (∀ f, cb.onClick = some f →
      f ∈ invoked (disconnect cb (connectToEyeNav doc cb)) EventType.eyeNavClick) := by
  refine ⟨?_, ?_, ?_⟩
  · intro f hf
    have h1 : (EventType.gazeUpdate, Listener.arrow doc.arrows f) ∈
        (hook doc EventType.gazeUpdate cb.onGaze).listeners := by
      rw [hf]; exact mem_addEventListener _ _ _
    have h2 := mem_hook_of_mem _ EventType.eyeNavClick cb.onClick _
      (mem_hook_of_mem _ EventType.eyeblink cb.onBlink _ h1)
    exact mem_invoked _ _ _ (arrow_mem_disconnect cb _ _ _ _ h2)
  · intro f hf
    have h1 : (EventType.eyeblink, Listener.arrow
        (hook doc EventType.gazeUpdate cb.onGaze).arrows f) ∈
        (hook (hook doc EventType.gazeUpdate cb.onGaze) EventType.eyeblink
          cb.onBlink).listeners := by
      rw [hf]; exact mem_addEventListener _ _ _
    have h2 := mem_hook_of_mem _ EventType.eyeNavClick cb.onClick _ h1
    exact mem_invoked _ _ _ (arrow_mem_disconnect cb _ _ _ _ h2)
  · intro f hf
    have h1 : (EventType.eyeNavClick, Listener.arrow
        (hook (hook doc EventType.gazeUpdate cb.onGaze) EventType.eyeblink
          cb.onBlink).arrows f) ∈ (connectToEyeNav doc cb).listeners := by
      unfold connectToEyeNav
      rw [hf]; exact mem_addEventListener _ _ _
    exact mem_invoked _ _ _ (arrow_mem_disconnect cb _ _ _ _ h1)

/-- C14 (defect in the code): `connectToEyeNav` registers arrow functions, `disconnect`
passes the callbacks themselves to `removeEventListener`. For the callbacks 1, 2, 3 on a
document without listeners, `disconnect` leaves the three registered listeners in place,
and a later `gazeUpdate`, `eyeblink` or `EyeNavClick` event still invokes `onGaze`,
`onBlink` or `onClick`. -/
theorem disconnect_leaves_listeners :
    (connectToEyeNav emptyDocument demoCallbacks).listeners =
      [(EventType.gazeUpdate, Listener.arrow 0 1), (EventType.eyeblink, Listener.arrow 1 2),
       (EventType.eyeNavClick, Listener.arrow 2 3)] ∧
    (disconnect demoCallbacks (connectToEyeNav emptyDocument demoCallbacks)).listeners =
      (connectToEyeNav emptyDocument demoCallbacks).listeners ∧
    invoked (disconnect demoCallbacks (connectToEyeNav emptyDocument demoCallbacks))
      EventType.gazeUpdate = [1] ∧
    invoked (disconnect demoCallbacks (connectToEyeNav emptyDocument demoCallbacks))
      EventType.eyeblink = [2] ∧
    invoked (disconnect demoCallbacks (connectToEyeNav emptyDocument demoCallbacks))
      EventType.eyeNavClick = [3] := by
  decide

end EyeNav
